import Mathlib

/-!
# PackageKit hif backend: comps catalog parsing and group resolution

A shallow embedding of `backends/hif/pk-backend-hif-comps.c`, with the package
report of `backends/dnf5/pk-backend-dnf5.cpp` and the package-index cache.

* The three GMarkup callbacks (`pk_comps_start_element`, `pk_comps_element_text`,
  `pk_comps_end_element`) are functions on the parse context `PkCompsData`.
* GMarkup itself and the file system are outside the file: a catalog file is
  represented by what loading and parsing it does, namely the callbacks that the
  markup parser delivers, in order, and whether the parse call reported success.
* C strings are `String`; a `GPtrArray` of strings is the list of its entries and
  a `gchar **` the list of its slots, `none` being a `NULL` pointer.
-/

namespace PkHifComps

/-! ## Data model -/

/-- The `PkCompsState` enum. -/
inductive PkCompsState
  | COMPS_STATE_CATEGORY
  | COMPS_STATE_CATEGORY_ID
  | COMPS_STATE_CATEGORY_GROUPID
  | COMPS_STATE_GROUP
  | COMPS_STATE_GROUP_ID
  | COMPS_STATE_GROUP_PKGREQ
  | COMPS_STATE_GROUP_DESCRIPTION
  | COMPS_STATE_IGNORE
  deriving DecidableEq, Repr

/-- The `PkCompsQuery` enum. -/
inductive PkCompsQuery
  | COMPS_QUERY_CATEGORY
  | COMPS_QUERY_GROUP
  deriving DecidableEq, Repr

open PkCompsState PkCompsQuery

/-- One callback invocation made by the markup parser.  `start` carries the
element name and the attribute (name, value) pairs in document order. -/
inductive MarkupEvent
  | start (element_name : String) (attributes : List (String × String))
  | text (text : String)
  | stop (element_name : String)
  deriving DecidableEq, Repr

/-- What `g_file_get_contents` followed by `g_markup_parse_context_parse` does
with one catalog file: either the file cannot be loaded, or the markup parser
delivers `events` to the callbacks and then returns `ok` (`false` when it stopped
at a markup error, after having delivered `events`).  The end of the document
is not checked, as `g_markup_parse_context_end_parse` is never called, so a file
that ends before its closing tags has `ok = true`.  The file is taken to stay the
same for the whole request, so every parse invocation meets the same outcome. -/
inductive CompsFile
  | unreadable
  | markup (events : List MarkupEvent) (ok : Bool)
  deriving DecidableEq, Repr

/-- The `PkCompsData` struct.  `groups` and `packages` are the entries of the two
pointer arrays; `comps` holds the catalog files in the order in which their
names were added.  `current_query` is assigned before every parse. -/
structure PkCompsData where
  current_query : String
  query_match : Bool
  groups : List (Option String)
  packages : List (Option String)
  comps : List CompsFile
  category_state : PkCompsState
  query : PkCompsQuery
  deriving DecidableEq, Repr

/-! ## The three callbacks -/

/-- `pk_comps_start_element`.  `current_locale` is `g_get_language_names ()[0]`;
`attribute_values` is the NULL-terminated value array, so its slot 0 is
`attribute_values.head?` (`none` for the terminator of an empty array). -/
def pk_comps_start_element (current_locale : String) (element_name : String)
    (attribute_values : List String) (comps_data : PkCompsData) : PkCompsData :=
  let comps_data :=
    if comps_data.query = COMPS_QUERY_CATEGORY then
      let comps_data := if element_name = "category"
        then { comps_data with category_state := COMPS_STATE_CATEGORY } else comps_data
      let comps_data :=
        if element_name = "id" ∧ comps_data.category_state = COMPS_STATE_CATEGORY
        then { comps_data with category_state := COMPS_STATE_CATEGORY_ID } else comps_data
      let comps_data := if element_name = "groupid"
        then { comps_data with category_state := COMPS_STATE_CATEGORY_GROUPID } else comps_data
      let comps_data := if element_name = "name"
        then { comps_data with category_state := COMPS_STATE_IGNORE } else comps_data
      let comps_data := if element_name = "description"
        then { comps_data with category_state := COMPS_STATE_IGNORE } else comps_data
      let comps_data := if element_name = "display_order"
        then { comps_data with category_state := COMPS_STATE_IGNORE } else comps_data
      let comps_data := if element_name = "grouplist"
        then { comps_data with category_state := COMPS_STATE_IGNORE } else comps_data
      comps_data
    else comps_data
  let comps_data :=
    if comps_data.query = COMPS_QUERY_GROUP then
      let comps_data := if element_name = "group"
        then { comps_data with category_state := COMPS_STATE_GROUP } else comps_data
      let comps_data :=
        if element_name = "id" ∧ comps_data.category_state = COMPS_STATE_GROUP
        then { comps_data with category_state := COMPS_STATE_GROUP_ID } else comps_data
      let comps_data := if element_name = "packagereq"
        then { comps_data with category_state := COMPS_STATE_GROUP_PKGREQ } else comps_data
      let comps_data := if element_name = "name"
        then { comps_data with category_state := COMPS_STATE_IGNORE } else comps_data
      let comps_data :=
        if element_name = "description" then
          if attribute_values.head? = some current_locale
          then { comps_data with category_state := COMPS_STATE_GROUP_DESCRIPTION }
          else { comps_data with category_state := COMPS_STATE_IGNORE }
        else comps_data
      let comps_data := if element_name = "default"
        then { comps_data with category_state := COMPS_STATE_IGNORE } else comps_data
      let comps_data := if element_name = "uservisible"
        then { comps_data with category_state := COMPS_STATE_IGNORE } else comps_data
      let comps_data := if element_name = "packagelist"
        then { comps_data with category_state := COMPS_STATE_IGNORE } else comps_data
      comps_data
    else comps_data
  comps_data

/-- `pk_comps_element_text`. -/
def pk_comps_element_text (text : String) (comps_data : PkCompsData) : PkCompsData :=
  let comps_data :=
    if comps_data.category_state = COMPS_STATE_CATEGORY_ID ∧ comps_data.current_query = text
    then { comps_data with query_match := true } else comps_data
  let comps_data :=
    if comps_data.category_state = COMPS_STATE_GROUP_ID ∧ comps_data.current_query = text
    then { comps_data with query_match := true } else comps_data
  if comps_data.query_match = true then
    let comps_data := if comps_data.category_state = COMPS_STATE_CATEGORY_GROUPID
      then { comps_data with groups := comps_data.groups ++ [some text] } else comps_data
    let comps_data := if comps_data.category_state = COMPS_STATE_GROUP_DESCRIPTION
      then comps_data else comps_data
    let comps_data := if comps_data.category_state = COMPS_STATE_GROUP_PKGREQ
      then { comps_data with packages := comps_data.packages ++ [some text] } else comps_data
    comps_data
  else comps_data

/-- `pk_comps_end_element`. -/
def pk_comps_end_element (element_name : String) (comps_data : PkCompsData) : PkCompsData :=
  if comps_data.query_match = true then
    let comps_data := if element_name = "groupid"
      then { comps_data with category_state := COMPS_STATE_IGNORE } else comps_data
    let comps_data := if element_name = "packagereq"
      then { comps_data with category_state := COMPS_STATE_IGNORE } else comps_data
    let comps_data := if element_name = "description"
      then { comps_data with category_state := COMPS_STATE_IGNORE } else comps_data
    let comps_data := if element_name = "category"
      then { comps_data with query_match := false } else comps_data
    let comps_data := if element_name = "group"
      then { comps_data with query_match := false } else comps_data
    comps_data
  else comps_data

/-- The callback table `comps_parser`: the markup parser hands each event to
the callback registered for its kind. -/
def comps_parser_table (current_locale : String) (comps_data : PkCompsData) :
    MarkupEvent → PkCompsData
  | .start element_name attributes =>
      pk_comps_start_element current_locale element_name (attributes.map Prod.snd) comps_data
  | .text text => pk_comps_element_text text comps_data
  | .stop element_name => pk_comps_end_element element_name comps_data

/-- The callbacks driven over a whole event stream, in order. -/
def drive (current_locale : String) (comps_data : PkCompsData)
    (events : List MarkupEvent) : PkCompsData :=
  events.foldl (comps_parser_table current_locale) comps_data

/-! ## Parsing the catalog files -/

/-- The `for` loop of `pk_backend_comps_parser` over the remaining files: the
first file that fails to load or to parse makes the function return `FALSE`
at once. -/
def pk_backend_comps_parser_loop (current_locale : String) :
    List CompsFile → PkCompsData → Bool × PkCompsData
  | [], comps_data => (true, comps_data)
  | CompsFile.unreadable :: _, comps_data => (false, comps_data)
  | CompsFile.markup events ok :: rest, comps_data =>
      let comps_data := drive current_locale comps_data events
      if ok then pk_backend_comps_parser_loop current_locale rest comps_data
      else (false, comps_data)

/-- The function `pk_backend_comps_parser`: resets `category_state` and walks
`comps`. -/
def pk_backend_comps_parser_call (current_locale : String) (comps_data : PkCompsData) :
    Bool × PkCompsData :=
  let comps_data := { comps_data with category_state := COMPS_STATE_IGNORE }
  pk_backend_comps_parser_loop current_locale comps_data.comps comps_data

/-! ## Group and category resolution -/

/-- Modelled from the spec: `pk_ptr_array_to_strv` is declared in the
packagekit-glib2 headers and its body is not among the sources; it is the
array-to-list conversion, which copies every entry of the pointer array into a
new vector and closes the vector with a NULL terminator. -/
def pk_ptr_array_to_strv (array : List (Option String)) : List (Option String) :=
  array ++ [none]

/-- The strings a consumer of a `gchar **` reads: the slots before the first
NULL one (`g_strv_length` counts them, indexing below it reads them). -/
def strvItems : List (Option String) → List String
  | some s :: rest => s :: strvItems rest
  | _ => []

/-- `pk_backend_get_packages_from_group`. -/
def pk_backend_get_packages_from_group (current_locale : String)
    (groups : List (Option String)) (comps_data : PkCompsData) :
    List (Option String) × PkCompsData :=
  let comps_data := { comps_data with query := COMPS_QUERY_GROUP, packages := [] }
  let comps_data := (strvItems groups).foldl
    (fun comps_data group =>
      (pk_backend_comps_parser_call current_locale
        { comps_data with current_query := group }).2)
    comps_data
  let comps_data := { comps_data with packages := comps_data.packages ++ [none] }
  (pk_ptr_array_to_strv comps_data.packages, comps_data)

/-- What a `gchar **` handed back by one of the helpers points at: a string
vector, or the `GPtrArray` struct itself when the array was returned without
conversion. -/
inductive StrvPointer
  | strv (slots : List (Option String))
  | ptr_array (entries : List (Option String))
  deriving DecidableEq, Repr

/-- `pk_backend_get_groups_from_category`.  The `if` on the parser's result has
an empty body, so the `return comps_data->groups` after it always runs and the
two statements below it are never reached. -/
def pk_backend_get_groups_from_category (current_locale : String)
    (category : String) (comps_data : PkCompsData) : StrvPointer × PkCompsData :=
  let comps_data :=
    { comps_data with query := COMPS_QUERY_CATEGORY, current_query := category, groups := [] }
  let comps_data := (pk_backend_comps_parser_call current_locale comps_data).2
  (StrvPointer.ptr_array comps_data.groups, comps_data)

/-- The strings that `g_strv_length` and `g_strdup` of each slot read through a
`gchar **`, `none` when the read faults.  A `GPtrArray` struct read as a string
vector has its `pdata` pointer in slot 0 and its `len` and `alloc` counts in
slot 1.  For an array nothing was added to, `pdata` is NULL and the vector
reads as empty.  Once an entry was added, slots 0 and 1 are both non-NULL and
`g_strdup` of slot 1 takes the counts for the address of a string: the read
faults. -/
def StrvPointer.items : StrvPointer → Option (List String)
  | .strv slots => some (strvItems slots)
  | .ptr_array [] => some []
  | .ptr_array (_ :: _) => none

/-- `pk_backend_group_mapping`; `none` when the copy loop over
`category_groups` faults. -/
def pk_backend_group_mapping (current_locale : String)
    (mappgroup : String) (comps_data : PkCompsData) :
    Option (List (Option String) × PkCompsData) :=
  let from_category := fun (category : String) =>
    let r := pk_backend_get_groups_from_category current_locale category comps_data
    (([] : List (Option String)), some r.1, r.2)
  let (groups, category_groups, comps_data) :=
    if mappgroup = "internet" then
      ([some "graphical-internet", some "text-internet"], none, comps_data)
    else if mappgroup = "legacy" then
      ([some "legacy-software-support"], none, comps_data)
    else if mappgroup = "publishing" then
      ([some "authoring-and-publishing"], none, comps_data)
    else if mappgroup = "desktop-kde" then from_category "kde-desktop-environment"
    else if mappgroup = "desktop-gnome" then from_category "gnome-desktop-environment"
    else if mappgroup = "desktop-xfce" then from_category "xfce-desktop-environment"
    else if mappgroup = "desktop-other" then from_category "lxde-desktop-environment"
    else if mappgroup = "programming" then from_category "development"
    else if mappgroup = "servers" then from_category "servers"
    else if mappgroup = "system" then from_category "base-system"
    else ([some mappgroup], none, comps_data)
  match category_groups with
  | some category_groups =>
      match category_groups.items with
      | some items => some (pk_ptr_array_to_strv (groups ++ items.map some), comps_data)
      | none => none
  | none => some (pk_ptr_array_to_strv groups, comps_data)

/-! ## The group search -/

/-- A `GError` as left by a failing collaborator. -/
structure GError where
  code : Int
  message : String
  deriving DecidableEq, Repr

/-- A package record of the index, with the fields read through the
`hy_package_get_*` accessors. -/
structure HyPackage where
  name : String
  version : String
  arch : String
  reponame : String
  packager : String
  summary : String
  deriving DecidableEq, Repr

/-- A repository source: `filename_md_group` is the catalog file that
`hif_source_get_filename_md (src, "group")` names, `none` when the source has
no group metadata. -/
structure HifSource where
  filename_md_group : Option CompsFile
  deriving DecidableEq, Repr

/-- What the job is told, in call order. -/
inductive JobSignal
  | set_allow_cancel (allow : Bool)
  | set_status_query
  | error_code (code : Int) (details : String)
  | package_available (package_id : String) (summary : String)
  | finished
  deriving DecidableEq, Repr

/-- What a call of the group search did: the signals it sent to the job, in call
order, and whether it ended in a fault instead of returning. -/
structure SearchRun where
  signals : List JobSignal
  faulted : Bool
  deriving DecidableEq, Repr

/-- The collaborators of the group search.  `repos_get_sources` is the result of
`hif_repos_get_sources`: the sources, or the error it left when it returned
NULL.  `query_run` is the index query by package names (`hy_query_filter_in`
on `HY_PKG_NAME` followed by `hy_query_run` on the cached sack).
`PK_ERROR_ENUM_REPO_NOT_FOUND` is the numeric value of that enum member. -/
structure Collaborators where
  current_locale : String
  repos_get_sources : Except GError (List HifSource)
  query_run : List String → List HyPackage
  PK_ERROR_ENUM_REPO_NOT_FOUND : Int

/-- Modelled from the spec: `pk_package_id_build` is declared in the
packagekit-glib2 headers and its body is not among the sources; the package id
is the four fields joined by semicolons, nothing escaped. -/
def pk_package_id_build (name version arch data : String) : String :=
  name ++ ";" ++ version ++ ";" ++ arch ++ ";" ++ data

/-- The zero-filled `PkCompsData` made by `g_new0`: both enums are at their
member 0, the flag is FALSE and the pointers are NULL. -/
def g_new0_PkCompsData : PkCompsData :=
  { current_query := ""
    query_match := false
    groups := []
    packages := []
    comps := []
    category_state := COMPS_STATE_CATEGORY
    query := COMPS_QUERY_CATEGORY }

/-- `pk_backend_search_groups`, as the signals sent to the job and the way the
call ended. -/
def pk_backend_search_groups (env : Collaborators) (values : List String) : SearchRun :=
  match values with
  | [] => { signals := [], faulted := false }
  | value0 :: _ =>
    let signals := [JobSignal.set_allow_cancel true, JobSignal.set_status_query]
    let comps_data := g_new0_PkCompsData
    match env.repos_get_sources with
    | .error error =>
        { signals := signals ++ [JobSignal.error_code error.code
            ("failed to scan yum.repos.d: " ++ error.message)]
          faulted := false }
    | .ok sources =>
        if sources.length = 0 then
          { signals := signals ++ [JobSignal.error_code env.PK_ERROR_ENUM_REPO_NOT_FOUND
              "failed to find any repos"]
            faulted := false }
        else
          let comps_data :=
            { comps_data with comps := sources.filterMap HifSource.filename_md_group }
          match pk_backend_group_mapping env.current_locale value0 comps_data with
          | none => { signals := signals, faulted := true }
          | some mapped =>
            let packages :=
              (pk_backend_get_packages_from_group env.current_locale mapped.1 mapped.2).1
            let plist := env.query_run (strvItems packages)
            { signals :=
                signals ++
                  plist.map (fun pkg =>
                    JobSignal.package_available
                      (pk_package_id_build pkg.name pkg.version pkg.arch pkg.packager)
                      pkg.summary) ++
                  [JobSignal.finished]
              faulted := false }

/-! ## The name search of the dnf5 backend -/

/-- The two `PkInfoEnum` values that the searches report. -/
inductive PkInfoEnum
  | PK_INFO_ENUM_INSTALLED
  | PK_INFO_ENUM_AVAILABLE
  deriving DecidableEq, Repr

/-- A libdnf5 package record, with the fields read by `dnf5_emit_pkg`. -/
structure Dnf5Package where
  name : String
  evr : String
  arch : String
  repo_id : String
  install_time : Nat
  summary : String
  deriving DecidableEq, Repr

/-- `dnf5_emit_pkg`, as the arguments of its call to `pk_backend_job_package`:
the info value, the package id and the summary. -/
def dnf5_emit_pkg (pkg : Dnf5Package) : PkInfoEnum × String × String :=
  let info :=
    if pkg.install_time > 0 then PkInfoEnum.PK_INFO_ENUM_INSTALLED
    else PkInfoEnum.PK_INFO_ENUM_AVAILABLE
  let evr := pkg.evr
  let repo_id := pkg.repo_id
  let package_id := pkg.name ++ ";" ++ evr ++ ";" ++ pkg.arch ++ ";" ++ repo_id
  (info, package_id, pkg.summary)

/-- The four fields of the package id form `name;version-or-evr;arch;repo_id`,
joined by semicolons with nothing escaped. -/
def package_id_string (name version arch repo_id : String) : String :=
  name ++ ";" ++ version ++ ";" ++ arch ++ ";" ++ repo_id

/-! ## The package-index cache -/

/-- A package-index handle. -/
structure HySack where
  handle : Nat
  deriving DecidableEq, Repr

/-- The `HifSackCacheItem` struct; `sack` is `none` once the handle has been
dropped. -/
structure HifSackCacheItem where
  sack : Option HySack
  valid : Bool
  key : String
  deriving DecidableEq, Repr

/-- Modelled from the spec: the cache is a mapping from filter keys to entries;
this is the entry stored under `filter_key`, if any. -/
def sack_cache_lookup (filter_key : String) (sack_cache : List HifSackCacheItem) :
    Option HifSackCacheItem :=
  sack_cache.find? (fun item => decide (item.key = filter_key))

/-- Modelled from the spec: a hit, that is the handle of the still-valid entry
stored under `filter_key`, if any. -/
def validSack (filter_key : String) (sack_cache : List HifSackCacheItem) : Option HySack :=
  match sack_cache_lookup filter_key sack_cache with
  | some item => if item.valid then item.sack else none
  | none => none

/-- Modelled from the spec: the outcome of one index request, namely the handle
(`none` for `IndexBuildFailed`), the cache afterwards, and how many times the
index-construction collaborator was invoked. -/
structure IndexRequest where
  result : Option HySack
  sack_cache : List HifSackCacheItem
  constructions : Nat
  deriving DecidableEq, Repr

/-- Modelled from the spec: `get_or_build_index` of the package-index cache
(spec section 4.5), which `pk_backend_search_groups` reaches through
`hif_utils_create_sack_for_filters` with `HIF_CREATE_SACK_FLAG_USE_CACHE`; the
body of that function is not among the sources.  On a hit with a still-valid
entry the cached handle is returned at once.  On a miss or an invalidated
entry a fresh index is constructed by the collaborator, whose outcome for this
request is `build_package_index` (`none` when construction fails), stored
under the key, marked valid and returned; a construction failure is returned
and does not populate the cache. -/
def get_or_build_index (build_package_index : Option HySack) (filter_key : String)
    (sack_cache : List HifSackCacheItem) : IndexRequest :=
  match validSack filter_key sack_cache with
  | some sack => { result := some sack, sack_cache := sack_cache, constructions := 0 }
  | none =>
    match build_package_index with
    | some sack =>
        { result := some sack
          sack_cache :=
            { sack := some sack, valid := true, key := filter_key } ::
              sack_cache.filter (fun item => decide (item.key ≠ filter_key))
          constructions := 1 }
    | none => { result := none, sack_cache := sack_cache, constructions := 1 }

/-- Modelled from the spec: `invalidate_all` of the package-index cache (spec
sections 3 and 4.5), whose code is not among the sources: every entry is
invalidated, its flag cleared and its handle dropped. -/
def invalidate_all (sack_cache : List HifSackCacheItem) : List HifSackCacheItem :=
  sack_cache.map (fun item => { item with sack := none, valid := false })

/-! ## Catalog documents

A catalog is a `comps` root element whose children are units (`group`,
`category`, `environment`, ...); a unit's children are fields, which are either
elements with text content or list elements (`packagelist`, `grouplist`, ...)
holding further text elements.  Text between elements is kept, since the
markup parser delivers it to the text callback like any other text. -/

/-- An element with text content, `<name attributes>text</name>`; `text` is the
text node delivered between its tags, `none` when there is none. -/
structure Leaf where
  name : String
  attributes : List (String × String)
  text : Option String
  deriving DecidableEq, Repr

/-- A child of a list element: text between elements, or a text element. -/
inductive Entry
  | blank (text : String)
  | leaf (l : Leaf)
  deriving DecidableEq, Repr

/-- A child of a unit: text between elements, a text element, or a list
element. -/
inductive Field
  | blank (text : String)
  | leaf (l : Leaf)
  | list (name : String) (attributes : List (String × String)) (entries : List Entry)
  deriving DecidableEq, Repr

/-- A child of the root: text between elements, or a unit. -/
inductive Item
  | blank (text : String)
  | unit (name : String) (attributes : List (String × String)) (fields : List Field)
  deriving DecidableEq, Repr

/-- A catalog document: the children of its `comps` root element. -/
structure Catalog where
  items : List Item
  deriving DecidableEq, Repr

/-- The callbacks delivered for a text element. -/
def Leaf.events (l : Leaf) : List MarkupEvent :=
  MarkupEvent.start l.name l.attributes ::
    ((match l.text with
      | some t => [MarkupEvent.text t]
      | none => []) ++ [MarkupEvent.stop l.name])

/-- The callbacks delivered for one child of a list element. -/
def Entry.events : Entry → List MarkupEvent
  | .blank t => [MarkupEvent.text t]
  | .leaf l => l.events

/-- The callbacks delivered for the children of a list element. -/
def entriesEvents : List Entry → List MarkupEvent
  | [] => []
  | e :: es => e.events ++ entriesEvents es

/-- The callbacks delivered for one child of a unit. -/
def Field.events : Field → List MarkupEvent
  | .blank t => [MarkupEvent.text t]
  | .leaf l => l.events
  | .list name attributes entries =>
      MarkupEvent.start name attributes :: (entriesEvents entries ++ [MarkupEvent.stop name])

/-- The callbacks delivered for the children of a unit. -/
def fieldsEvents : List Field → List MarkupEvent
  | [] => []
  | f :: fs => f.events ++ fieldsEvents fs

/-- The callbacks delivered for one child of the root. -/
def Item.events : Item → List MarkupEvent
  | .blank t => [MarkupEvent.text t]
  | .unit name attributes fields =>
      MarkupEvent.start name attributes :: (fieldsEvents fields ++ [MarkupEvent.stop name])

/-- The callbacks delivered for the children of the root. -/
def itemsEvents : List Item → List MarkupEvent
  | [] => []
  | i :: is => i.events ++ itemsEvents is

/-- The event stream of a catalog document, in document order. -/
def Catalog.events (c : Catalog) : List MarkupEvent :=
  MarkupEvent.start "comps" [] :: (itemsEvents c.items ++ [MarkupEvent.stop "comps"])

/-- Text made of whitespace characters only. -/
def isBlank (s : String) : Bool := s.data.all Char.isWhitespace

/-- A text element of a well-formed catalog is not called `group` or
`category`: those are units. -/
def Leaf.wellFormed (l : Leaf) : Bool :=
  decide (l.name ≠ "group") && decide (l.name ≠ "category")

/-- Well-formed child of a list element. -/
def Entry.wellFormed : Entry → Bool
  | .blank t => isBlank t
  | .leaf l => l.wellFormed

/-- Well-formed child of a unit: text between elements is blank, `group` and
`category` are not nested, and `packagereq` is a text element, not a list. -/
def Field.wellFormed : Field → Bool
  | .blank t => isBlank t
  | .leaf l => l.wellFormed
  | .list name _ entries =>
      decide (name ≠ "group") && decide (name ≠ "category") &&
        decide (name ≠ "packagereq") && entries.all Entry.wellFormed

/-- Well-formed child of the root. -/
def Item.wellFormed : Item → Bool
  | .blank t => isBlank t
  | .unit _ _ fields => fields.all Field.wellFormed

/-- A well-formed catalog. -/
def Catalog.wellFormed (c : Catalog) : Bool := c.items.all Item.wellFormed

/-- The id of a unit: the text of its first `id` child element. -/
def unitId : List Field → Option String
  | [] => none
  | .leaf l :: fs => if l.name = "id" then l.text else unitId fs
  | _ :: fs => unitId fs

/-- The text value of a text element if it is a `packagereq`. -/
def Leaf.packagereq (l : Leaf) : List String :=
  if l.name = "packagereq" then l.text.toList else []

/-- The `packagereq` text values among the children of a list element. -/
def entriesPackagereqs : List Entry → List String
  | [] => []
  | .blank _ :: es => entriesPackagereqs es
  | .leaf l :: es => l.packagereq ++ entriesPackagereqs es

/-- The `packagereq` text values nested under a unit, in document order. -/
def fieldsPackagereqs : List Field → List String
  | [] => []
  | .blank _ :: fs => fieldsPackagereqs fs
  | .leaf l :: fs => l.packagereq ++ fieldsPackagereqs fs
  | .list _ _ entries :: fs => entriesPackagereqs entries ++ fieldsPackagereqs fs

/-- The groups of a catalog whose id is `target`, each given by its children. -/
def groupsWithId (target : String) : List Item → List (List Field)
  | [] => []
  | .blank _ :: is => groupsWithId target is
  | .unit name _ fields :: is =>
      if name = "group" ∧ unitId fields = some target
      then fields :: groupsWithId target is else groupsWithId target is

/-- Whether some group of the catalog has id `target`. -/
def Catalog.hasGroup (c : Catalog) (target : String) : Bool :=
  !(groupsWithId target c.items).isEmpty

/-- The `packagereq` text values nested under the groups with id `target`, in
document order (for a single such group, those of that group). -/
def groupPackages (target : String) : List Item → List String
  | [] => []
  | .blank _ :: is => groupPackages target is
  | .unit name _ fields :: is =>
      if name = "group" ∧ unitId fields = some target
      then fieldsPackagereqs fields ++ groupPackages target is
      else groupPackages target is

/-- The context at the start of a parse in GroupLookup mode for `target`:
state Ignored, match inactive, both collections empty. -/
def groupLookupStart (target : String) : PkCompsData :=
  { current_query := target
    query_match := false
    groups := []
    packages := []
    comps := []
    category_state := COMPS_STATE_IGNORE
    query := COMPS_QUERY_GROUP }

/-! ## Catalog layout, catalog files and expected results -/

/-- The element names, other than `group` and `id`, whose start sets the state
in GroupLookup mode whatever the state was. -/
def enumeratedFields : List String :=
  ["packagereq", "name", "description", "default", "uservisible", "packagelist"]

/-- The element name of a unit's child, `none` for text. -/
def Field.elementName : Field → Option String
  | .blank _ => none
  | .leaf l => some l.name
  | .list name _ _ => some name

/-- The children of a unit from its first element on. -/
def skipBlank : List Field → List Field
  | .blank _ :: fs => skipBlank fs
  | .leaf l :: fs => .leaf l :: fs
  | .list name attributes entries :: fs => .list name attributes entries :: fs
  | [] => []

/-- A group in the usual layout: its first child element is the text element
`id`, and the element after it is one of the `enumeratedFields`. -/
def groupLayout (fields : List Field) : Bool :=
  match skipBlank fields with
  | .leaf l :: rest =>
      decide (l.name = "id") &&
        (match skipBlank rest with
         | f :: _ =>
            (match f.elementName with
             | some n => decide (n ∈ enumeratedFields)
             | none => false)
         | [] => false)
  | _ => false

/-- Every `group` child of the root is in the usual layout. -/
def Item.idFirst : Item → Bool
  | .blank _ => true
  | .unit name _ fields => if name = "group" then groupLayout fields else true

/-- A catalog whose groups all open with their id, followed by an enumerated
field. -/
def Catalog.idFirst (c : Catalog) : Bool := c.items.all Item.idFirst

/-- A catalog file that loads and parses: the markup parser delivers the
catalog's events and reports success. -/
def catalogFile (c : Catalog) : CompsFile := CompsFile.markup c.events true

/-- The `packagereq` text values under the groups with id `target`, catalog
after catalog. -/
def catalogsPackages (target : String) : List Catalog → List String
  | [] => []
  | c :: cs => groupPackages target c.items ++ catalogsPackages target cs

/-- The text value of a text element if it is a `groupid`. -/
def Leaf.groupid (l : Leaf) : List String :=
  if l.name = "groupid" then l.text.toList else []

/-- The `groupid` text values among the children of a list element. -/
def entriesGroupids : List Entry → List String
  | [] => []
  | .blank _ :: es => entriesGroupids es
  | .leaf l :: es => l.groupid ++ entriesGroupids es

/-- The `groupid` text values nested under a unit, in document order. -/
def fieldsGroupids : List Field → List String
  | [] => []
  | .blank _ :: fs => fieldsGroupids fs
  | .leaf l :: fs => l.groupid ++ fieldsGroupids fs
  | .list _ _ entries :: fs => entriesGroupids entries ++ fieldsGroupids fs

/-- The `groupid` text values nested under the categories with id `target`, in
document order. -/
def categoryGroupids (target : String) : List Item → List String
  | [] => []
  | .blank _ :: is => categoryGroupids target is
  | .unit name _ fields :: is =>
      if name = "category" ∧ unitId fields = some target
      then fieldsGroupids fields ++ categoryGroupids target is
      else categoryGroupids target is

/-- The `groupid` text values under the categories with id `target`, catalog
after catalog. -/
def catalogsGroupids (target : String) : List Catalog → List String
  | [] => []
  | c :: cs => categoryGroupids target c.items ++ catalogsGroupids target cs

/-- The element names, other than `category` and `id`, whose start sets the
state in CategoryLookup mode whatever the state was. -/
def categoryEnumeratedFields : List String :=
  ["groupid", "name", "description", "display_order", "grouplist"]

/-- A category in the usual layout: its first child element is the text element
`id`, and the element after it is one of the `categoryEnumeratedFields`. -/
def categoryLayout (fields : List Field) : Bool :=
  match skipBlank fields with
  | .leaf l :: rest =>
      decide (l.name = "id") &&
        (match skipBlank rest with
         | f :: _ =>
            (match f.elementName with
             | some n => decide (n ∈ categoryEnumeratedFields)
             | none => false)
         | [] => false)
  | _ => false

/-- A child of a unit in which `groupid` is a text element, not a list. -/
def Field.groupidIsText : Field → Bool
  | .list name _ _ => decide (name ≠ "groupid")
  | _ => true

/-- Every `category` child of the root is in the usual layout and has only text
elements named `groupid`. -/
def Item.categoryIdFirst : Item → Bool
  | .blank _ => true
  | .unit name _ fields =>
      if name = "category" then categoryLayout fields && fields.all Field.groupidIsText
      else true

/-- A catalog whose categories all open with their id, followed by an
enumerated field, and hold `groupid` only as text elements. -/
def Catalog.categoryIdFirst (c : Catalog) : Bool := c.items.all Item.categoryIdFirst

/-- The layout condition of a query mode: in GroupLookup mode the groups, in
CategoryLookup mode the categories of the catalog are in the usual layout. -/
def Catalog.layoutFor (q : PkCompsQuery) (c : Catalog) : Bool :=
  match q with
  | COMPS_QUERY_CATEGORY => c.categoryIdFirst
  | COMPS_QUERY_GROUP => c.idFirst

/-- The entries that a catalog holds for `target` in a query mode, as the pair
of group ids and package names: in CategoryLookup mode the `groupid` values
under the categories with that id, in GroupLookup mode the `packagereq` values
under the groups with that id, in document order. -/
def catalogNames (q : PkCompsQuery) (target : String) (c : Catalog) :
    List (Option String) × List (Option String) :=
  match q with
  | COMPS_QUERY_CATEGORY => ((categoryGroupids target c.items).map some, [])
  | COMPS_QUERY_GROUP => ([], (groupPackages target c.items).map some)

/-- The entries collected by one parse invocation over `files`, starting from
empty collections: the group ids and the package names, in this order.  In
CategoryLookup mode the first, in GroupLookup mode the second component is the
one that the parse fills. -/
def collectedFrom (current_locale : String) (comps_data : PkCompsData)
    (files : List CompsFile) : List (Option String) × List (Option String) :=
  let comps_data := (pk_backend_comps_parser_call current_locale
    { comps_data with comps := files, groups := [], packages := [] }).2
  (comps_data.groups, comps_data.packages)

/-- Whether the walk of `pk_backend_comps_parser` returns `FALSE` at this file:
`g_file_get_contents` or `g_markup_parse_context_parse` returned `FALSE`.  A
file that only ends before its closing tags is not such a file: the parse call
accepts it. -/
def CompsFile.fails : CompsFile → Bool
  | .unreadable => true
  | .markup _ ok => !ok

/-- The callbacks delivered for the file before the walk leaves it: none for a
file that cannot be loaded. -/
def CompsFile.delivered : CompsFile → List MarkupEvent
  | .unreadable => []
  | .markup events _ => events

/-- What `pk_backend_group_mapping` does with a CategoryLookup row of the alias
table: it runs the category lookup on `category` and hands back, as a string
vector, the strings read through the pointer that the lookup returned, or
faults in that read. -/
def viaCategory (current_locale : String) (category : String)
    (comps_data : PkCompsData) : Option (List (Option String) × PkCompsData) :=
  let r := pk_backend_get_groups_from_category current_locale category comps_data
  match r.1.items with
  | some items => some (pk_ptr_array_to_strv (items.map some), r.2)
  | none => none

/-- The ten keys of the alias table. -/
def aliasKeys : List String :=
  ["internet", "legacy", "publishing", "desktop-kde", "desktop-gnome", "desktop-xfce",
    "desktop-other", "programming", "servers", "system"]

/-! ## Example inputs -/

/-- The children of the group of `nameFirstCatalog`: the `name` element comes
before the `id` element. -/
def nameFirstGroup : List Field :=
  [ Field.blank "\n    ",
    Field.leaf ⟨"name", [], some "Editors"⟩,
    Field.blank "\n    ",
    Field.leaf ⟨"id", [], some "editors"⟩,
    Field.blank "\n    ",
    Field.list "packagelist" []
      [ Entry.leaf ⟨"packagereq", [("type", "default")], some "vim"⟩ ],
    Field.blank "\n  " ]

/-- A well-formed catalog with one group, `editors`, whose `name` precedes its
`id`. -/
def nameFirstCatalog : Catalog :=
  ⟨[ Item.blank "\n  ", Item.unit "group" [] nameFirstGroup, Item.blank "\n" ]⟩

/-- The children of the first group of `usualCatalog`. -/
def usualGroup : List Field :=
  [ Field.blank "\n    ",
    Field.leaf ⟨"id", [], some "editors"⟩,
    Field.blank "\n    ",
    Field.leaf ⟨"name", [], some "Editors"⟩,
    Field.leaf ⟨"description", [("xml:lang", "de")], some "Texteditoren"⟩,
    Field.leaf ⟨"default", [], some "true"⟩,
    Field.leaf ⟨"uservisible", [], some "true"⟩,
    Field.blank "\n    ",
    Field.list "packagelist" []
      [ Entry.blank "\n      ",
        Entry.leaf ⟨"packagereq", [("type", "default")], some "vim"⟩,
        Entry.blank "\n      ",
        Entry.leaf ⟨"packagereq", [("type", "optional")], some "emacs"⟩,
        Entry.leaf ⟨"packagereq", [("type", "optional")], some "vim"⟩,
        Entry.blank "\n    " ],
    Field.blank "\n  " ]

/-- A catalog in the usual layout: two groups and a category. -/
def usualCatalog : Catalog :=
  ⟨[ Item.blank "\n  ",
     Item.unit "group" [] usualGroup,
     Item.blank "\n  ",
     Item.unit "group" []
       [ Field.leaf ⟨"id", [], some "games"⟩,
         Field.leaf ⟨"name", [], some "Games"⟩,
         Field.list "packagelist" []
           [ Entry.leaf ⟨"packagereq", [], some "nethack"⟩ ] ],
     Item.blank "\n  ",
     Item.unit "category" []
       [ Field.leaf ⟨"id", [], some "apps"⟩,
         Field.leaf ⟨"name", [], some "Applications"⟩,
         Field.list "grouplist" []
           [ Entry.leaf ⟨"groupid", [], some "editors"⟩,
             Entry.leaf ⟨"groupid", [], some "games"⟩ ] ],
     Item.blank "\n" ]⟩

/-- A well-formed catalog whose only group, `japanese-support`, has a
`langonly` element right after its `id`. -/
def langonlyCatalog : Catalog :=
  ⟨[ Item.unit "group" []
       [ Field.leaf ⟨"id", [], some "japanese-support"⟩,
         Field.leaf ⟨"langonly", [], some "ja"⟩,
         Field.leaf ⟨"name", [], some "Japanese Support"⟩,
         Field.list "packagelist" []
           [ Entry.leaf ⟨"packagereq", [], some "ibus-anthy"⟩ ] ] ]⟩

/-- A well-formed catalog with the single group `editors`. -/
def editorsCatalog : Catalog :=
  ⟨[ Item.unit "group" []
       [ Field.leaf ⟨"id", [], some "editors"⟩,
         Field.leaf ⟨"name", [], some "Editors"⟩,
         Field.list "packagelist" [] [ Entry.leaf ⟨"packagereq", [], some "vim"⟩ ] ] ]⟩

/-- A well-formed catalog: a group holding only its id, then an environment
with id `minimal`. -/
def environmentCatalog : Catalog :=
  ⟨[ Item.unit "group" [] [ Field.leaf ⟨"id", [], some "core"⟩ ],
     Item.unit "environment" []
       [ Field.leaf ⟨"id", [], some "minimal"⟩,
         Field.list "grouplist" [] [ Entry.leaf ⟨"groupid", [], some "core"⟩ ] ] ]⟩

/-- A catalog file with a markup error inside the group `editors`: right after
the first `packagereq` comes the closing tag of `group` while `packagelist` is
still open.  The markup parser delivers the events up to the end of that
`packagereq`, then reports the mismatched tag as an error. -/
def brokenFile : CompsFile :=
  CompsFile.markup
    [ MarkupEvent.start "comps" [],
      MarkupEvent.start "group" [],
      MarkupEvent.start "id" [],
      MarkupEvent.text "editors",
      MarkupEvent.stop "id",
      MarkupEvent.start "name" [],
      MarkupEvent.text "Editors",
      MarkupEvent.stop "name",
      MarkupEvent.start "packagelist" [],
      MarkupEvent.start "packagereq" [],
      MarkupEvent.text "vim",
      MarkupEvent.stop "packagereq" ]
    false

/-- A catalog file with a markup error right after its root start tag. -/
def malformedFile : CompsFile :=
  CompsFile.markup [MarkupEvent.start "comps" []] false

/-- A catalog file that ends inside the group `editors`, right after its first
`packagereq`: the markup parser delivers the events up to there and the parse
call returns `TRUE`. -/
def cutShortFile : CompsFile :=
  CompsFile.markup brokenFile.delivered true

/-- A well-formed catalog: a category holding only its id, then an environment
with id `minimal`. -/
def categoryThenEnvironment : Catalog :=
  ⟨[ Item.unit "category" [] [ Field.leaf ⟨"id", [], some "base"⟩ ],
     Item.unit "environment" []
       [ Field.leaf ⟨"id", [], some "minimal"⟩,
         Field.leaf ⟨"name", [], some "Minimal Install"⟩ ] ]⟩

/-- The context at the start of a parse in CategoryLookup mode for `target`:
state Ignored, match inactive, both collections empty. -/
def categoryLookupStart (target : String) : PkCompsData :=
  { current_query := target
    query_match := false
    groups := []
    packages := []
    comps := []
    category_state := COMPS_STATE_IGNORE
    query := COMPS_QUERY_CATEGORY }

/-- Two catalog files: `usualCatalog`, then a file that cannot be loaded. -/
def usualThenUnreadable : List CompsFile := [catalogFile usualCatalog, CompsFile.unreadable]

/-- Scenario A, first catalog: the category `gnome-desktop-environment` lists
the groups `gnome-desktop` and `gnome-apps`. -/
def gnomeCategoryCatalog : Catalog :=
  ⟨[ Item.unit "category" []
       [ Field.leaf ⟨"id", [], some "gnome-desktop-environment"⟩,
         Field.leaf ⟨"name", [], some "GNOME Desktop"⟩,
         Field.list "grouplist" []
           [ Entry.leaf ⟨"groupid", [], some "gnome-desktop"⟩,
             Entry.leaf ⟨"groupid", [], some "gnome-apps"⟩ ] ] ]⟩

/-- Scenario A, second catalog: the group `gnome-desktop` requires
`gnome-shell` and `nautilus`. -/
def gnomeGroupCatalog : Catalog :=
  ⟨[ Item.unit "group" []
       [ Field.leaf ⟨"id", [], some "gnome-desktop"⟩,
         Field.leaf ⟨"name", [], some "GNOME"⟩,
         Field.list "packagelist" []
           [ Entry.leaf ⟨"packagereq", [], some "gnome-shell"⟩,
             Entry.leaf ⟨"packagereq", [], some "nautilus"⟩ ] ] ]⟩

/-- Scenario A: two repository sources carrying the two catalogs, and an index
that holds one package for every name asked for. -/
def scenarioA : Collaborators :=
  { current_locale := "C"
    repos_get_sources :=
      Except.ok [⟨some (catalogFile gnomeCategoryCatalog)⟩, ⟨some (catalogFile gnomeGroupCatalog)⟩]
    query_run := fun names =>
      names.map (fun n => ⟨n, "1.0", "x86_64", "fedora", "Fedora Project", n⟩)
    PK_ERROR_ENUM_REPO_NOT_FOUND := 19 }

/-- The parse context after the category lookup of Scenario A. -/
def scenarioAContext : PkCompsData :=
  { current_query := "gnome-desktop-environment"
    query_match := false
    groups := [some "gnome-desktop", some "gnome-apps"]
    packages := []
    comps := [catalogFile gnomeCategoryCatalog, catalogFile gnomeGroupCatalog]
    category_state := COMPS_STATE_IGNORE
    query := COMPS_QUERY_CATEGORY }

/-- A description start with two attributes, the second of which carries the
locale tag `fr`. -/
def descriptionStart : MarkupEvent :=
  MarkupEvent.start "description" [("xml:lang", "de"), ("fallback", "fr")]

/-- Collaborators whose source enumeration fails with `error`. -/
def failingEnumeration (error : GError) : Collaborators :=
  { current_locale := "C"
    repos_get_sources := Except.error error
    query_run := fun names =>
      names.map (fun n => ⟨n, "1.0", "x86_64", "fedora", "Fedora Project", n⟩)
    PK_ERROR_ENUM_REPO_NOT_FOUND := 19 }

/-- The events up to the `id` start of a group whose `name` precedes its
`id`. -/
def nameThenId : List MarkupEvent :=
  [ MarkupEvent.start "group" [],
    MarkupEvent.start "name" [],
    MarkupEvent.text "Editors",
    MarkupEvent.stop "name",
    MarkupEvent.start "id" [] ]

/-- The events up to the `id` start of a category whose `name` precedes its
`id`. -/
def categoryNameThenId : List MarkupEvent :=
  [ MarkupEvent.start "category" [],
    MarkupEvent.start "name" [],
    MarkupEvent.text "Applications",
    MarkupEvent.stop "name",
    MarkupEvent.start "id" [] ]

/-- The events up to the `id` start of a group whose `id` follows blank text and
an element the callbacks do not know. -/
def quietThenId : List MarkupEvent :=
  [ MarkupEvent.text "\n    ",
    MarkupEvent.start "langonly" [],
    MarkupEvent.text "ja",
    MarkupEvent.stop "langonly",
    MarkupEvent.text "\n    " ]

/-- A parse context over `usualCatalog` followed by `malformedFile`, for which
the parse reports failure. -/
def failingParseContext : PkCompsData :=
  { g_new0_PkCompsData with comps := [catalogFile usualCatalog, malformedFile] }

/-- A group search over one source carrying `editorsCatalog`, with an index that
holds, for every name asked for, one package of repository `fedora` packaged
by `Fedora Project`. -/
def editorsSearch : Collaborators :=
  { current_locale := "C"
    repos_get_sources := Except.ok [⟨some (catalogFile editorsCatalog)⟩]
    query_run := fun names =>
      names.map (fun n => ⟨n, "8.2", "x86_64", "fedora", "Fedora Project", "Vi IMproved"⟩)
    PK_ERROR_ENUM_REPO_NOT_FOUND := 19 }

/-- A cache holding a valid entry for `installed` and an invalidated one for
`all`. -/
def exampleCache : List HifSackCacheItem :=
  [ { sack := some ⟨1⟩, valid := true, key := "installed" },
    { sack := none, valid := false, key := "all" } ]

/-! ## Proof devices

Closed forms and invariants used by the proofs below. -/

/-- The context with its state, match flag and package array replaced. -/
def PkCompsData.moved (cd : PkCompsData) (s : PkCompsState) (m : Bool)
    (ps : List (Option String)) : PkCompsData :=
  { cd with category_state := s, query_match := m, packages := ps }

/-- Closed form of the state after an element start in GroupLookup mode. -/
def groupStart (current_locale element_name : String) (attribute_values : List String)
    (s : PkCompsState) : PkCompsState :=
  if element_name = "group" then COMPS_STATE_GROUP
  else if element_name = "id" then
    (if s = COMPS_STATE_GROUP then COMPS_STATE_GROUP_ID else s)
  else if element_name = "packagereq" then COMPS_STATE_GROUP_PKGREQ
  else if element_name = "name" then COMPS_STATE_IGNORE
  else if element_name = "description" then
    (if attribute_values.head? = some current_locale then COMPS_STATE_GROUP_DESCRIPTION
     else COMPS_STATE_IGNORE)
  else if element_name = "default" then COMPS_STATE_IGNORE
  else if element_name = "uservisible" then COMPS_STATE_IGNORE
  else if element_name = "packagelist" then COMPS_STATE_IGNORE
  else s

/-- Closed form of the state after an element start in CategoryLookup mode. -/
def categoryStart (element_name : String) (s : PkCompsState) : PkCompsState :=
  if element_name = "category" then COMPS_STATE_CATEGORY
  else if element_name = "id" then
    (if s = COMPS_STATE_CATEGORY then COMPS_STATE_CATEGORY_ID else s)
  else if element_name = "groupid" then COMPS_STATE_CATEGORY_GROUPID
  else if element_name = "name" then COMPS_STATE_IGNORE
  else if element_name = "description" then COMPS_STATE_IGNORE
  else if element_name = "display_order" then COMPS_STATE_IGNORE
  else if element_name = "grouplist" then COMPS_STATE_IGNORE
  else s

/-- Closed form of the state after an element start, in either mode. -/
def startState (current_locale element_name : String) (attribute_values : List String)
    (q : PkCompsQuery) (s : PkCompsState) : PkCompsState :=
  match q with
  | COMPS_QUERY_CATEGORY => categoryStart element_name s
  | COMPS_QUERY_GROUP => groupStart current_locale element_name attribute_values s

/-- Closed form of the match flag after a text event. -/
def textMatch (t : String) (cd : PkCompsData) : Bool :=
  cd.query_match ||
    ((decide (cd.category_state = COMPS_STATE_CATEGORY_ID) ||
        decide (cd.category_state = COMPS_STATE_GROUP_ID)) &&
      decide (cd.current_query = t))

/-- States in which text is neither a candidate id nor a collected entry. -/
def Calm (m : Bool) (s : PkCompsState) : Prop :=
  s = COMPS_STATE_IGNORE ∨ s = COMPS_STATE_GROUP_DESCRIPTION ∨
    (s = COMPS_STATE_GROUP_PKGREQ ∧ m = false)

/-- The context with other catalog files and with entries put in front of both
collections. -/
def PkCompsData.reframe (cd : PkCompsData) (files : List CompsFile)
    (gs ps : List (Option String)) : PkCompsData :=
  { cd with comps := files, groups := gs ++ cd.groups, packages := ps ++ cd.packages }

/-- The context with both collections emptied and the state reset. -/
def PkCompsData.cleared (cd : PkCompsData) : PkCompsData :=
  { cd with groups := [], packages := [], category_state := COMPS_STATE_IGNORE }

/-- The context of a GroupLookup parse for `group` over `files`, with match
inactive and both collections empty. -/
def probe (files : List CompsFile) (group : String) : PkCompsData :=
  { current_query := group
    query_match := false
    groups := []
    packages := []
    comps := files
    category_state := COMPS_STATE_IGNORE
    query := COMPS_QUERY_GROUP }

/-- The `for` loop of `pk_backend_get_packages_from_group` over the group ids. -/
def groupsLoop (current_locale : String) (ids : List String) (comps_data : PkCompsData) :
    PkCompsData :=
  ids.foldl
    (fun comps_data group =>
      (pk_backend_comps_parser_call current_locale
        { comps_data with current_query := group }).2)
    comps_data

/-- The states that a walk in the given query mode can be in after a parse
start: the mode's own states and `COMPS_STATE_IGNORE`. -/
def modeState : PkCompsQuery → PkCompsState → Bool
  | COMPS_QUERY_CATEGORY, COMPS_STATE_CATEGORY => true
  | COMPS_QUERY_CATEGORY, COMPS_STATE_CATEGORY_ID => true
  | COMPS_QUERY_CATEGORY, COMPS_STATE_CATEGORY_GROUPID => true
  | COMPS_QUERY_GROUP, COMPS_STATE_GROUP => true
  | COMPS_QUERY_GROUP, COMPS_STATE_GROUP_ID => true
  | COMPS_QUERY_GROUP, COMPS_STATE_GROUP_PKGREQ => true
  | COMPS_QUERY_GROUP, COMPS_STATE_GROUP_DESCRIPTION => true
  | _, COMPS_STATE_IGNORE => true
  | _, _ => false

/-- The Id state of a query mode. -/
def idState : PkCompsQuery → PkCompsState
  | COMPS_QUERY_CATEGORY => COMPS_STATE_CATEGORY_ID
  | COMPS_QUERY_GROUP => COMPS_STATE_GROUP_ID

/-- The element names that one of the callbacks reacts to. -/
def reactiveNames : List String :=
  ["category", "group", "id", "groupid", "packagereq", "name", "description",
    "display_order", "grouplist", "default", "uservisible", "packagelist"]

/-- An event that none of the callbacks' name tests reacts to: text, or the
start or end of an element whose name is not among `reactiveNames`. -/
def quietEvent : MarkupEvent → Bool
  | .start n _ => decide (n ∉ reactiveNames)
  | .text _ => true
  | .stop n => decide (n ∉ reactiveNames)

/-- The context with its state, match flag and group array replaced. -/
def PkCompsData.movedTo (cd : PkCompsData) (s : PkCompsState) (m : Bool)
    (gs : List (Option String)) : PkCompsData :=
  { cd with category_state := s, query_match := m, groups := gs }

/-- States of CategoryLookup mode in which text is neither a candidate id nor a
collected entry. -/
def CalmC (m : Bool) (s : PkCompsState) : Prop :=
  s = COMPS_STATE_IGNORE ∨ (s = COMPS_STATE_CATEGORY_GROUPID ∧ m = false)

/-! ## Lemmas on the callbacks in GroupLookup mode -/

theorem start_moved (loc n : String) (av : List String) (cd : PkCompsData)
    (hq : cd.query = COMPS_QUERY_GROUP) (s : PkCompsState) (m : Bool)
    (ps : List (Option String)) :
    pk_comps_start_element loc n av (cd.moved s m ps) = cd.moved (groupStart loc n av s) m ps := by
  simp only [pk_comps_start_element, PkCompsData.moved, groupStart, hq]
  by_cases h1 : n = "group"
  · subst h1; simp
  by_cases h2 : n = "id"
  · subst h2; by_cases hs : s = COMPS_STATE_GROUP <;> simp [hs]
  by_cases h3 : n = "packagereq"
  · subst h3; simp
  by_cases h4 : n = "name"
  · subst h4; simp
  by_cases h5 : n = "description"
  · subst h5; by_cases hl : av.head? = some loc <;> simp [hl]
  by_cases h6 : n = "default"
  · subst h6; simp
  by_cases h7 : n = "uservisible"
  · subst h7; simp
  by_cases h8 : n = "packagelist"
  · subst h8; simp
  simp [h1, h2, h3, h4, h5, h6, h7, h8]

theorem text_calm (t : String) (cd : PkCompsData) (s : PkCompsState) (m : Bool)
    (ps : List (Option String)) (hs : Calm m s) :
    pk_comps_element_text t (cd.moved s m ps) = cd.moved s m ps := by
  rcases hs with h | h | ⟨h, hm⟩ <;> subst h
  · cases m <;> simp [pk_comps_element_text, PkCompsData.moved]
  · cases m <;> simp [pk_comps_element_text, PkCompsData.moved]
  · subst hm; simp [pk_comps_element_text, PkCompsData.moved]

theorem text_pkgreq (t : String) (cd : PkCompsData) (ps : List (Option String)) :
    pk_comps_element_text t (cd.moved COMPS_STATE_GROUP_PKGREQ true ps) =
      cd.moved COMPS_STATE_GROUP_PKGREQ true (ps ++ [some t]) := by
  simp [pk_comps_element_text, PkCompsData.moved]

theorem text_group (t : String) (cd : PkCompsData) (ps : List (Option String)) :
    pk_comps_element_text t (cd.moved COMPS_STATE_GROUP false ps) =
      cd.moved COMPS_STATE_GROUP false ps := by
  simp [pk_comps_element_text, PkCompsData.moved]

theorem text_group_id (t : String) (cd : PkCompsData) (m : Bool) (ps : List (Option String)) :
    pk_comps_element_text t (cd.moved COMPS_STATE_GROUP_ID m ps) =
      cd.moved COMPS_STATE_GROUP_ID (m || decide (cd.current_query = t)) ps := by
  by_cases h : cd.current_query = t <;> cases m <;>
    simp [pk_comps_element_text, PkCompsData.moved, h]

theorem stop_moved (n : String) (cd : PkCompsData) (s : PkCompsState) (m : Bool)
    (ps : List (Option String)) :
    pk_comps_end_element n (cd.moved s m ps) =
      cd.moved
        (if m = true ∧ (n = "groupid" ∨ n = "packagereq" ∨ n = "description")
          then COMPS_STATE_IGNORE else s)
        (m && decide (n ≠ "category") && decide (n ≠ "group")) ps := by
  cases m
  · simp [pk_comps_end_element, PkCompsData.moved]
  · simp only [pk_comps_end_element, PkCompsData.moved]
    by_cases h1 : n = "groupid"
    · subst h1; simp
    by_cases h2 : n = "packagereq"
    · subst h2; simp
    by_cases h3 : n = "description"
    · subst h3; simp
    by_cases h4 : n = "category"
    · subst h4; simp
    by_cases h5 : n = "group"
    · subst h5; simp
    simp [h1, h2, h3, h4, h5]

theorem drive_append (loc : String) (cd : PkCompsData) (a b : List MarkupEvent) :
    drive loc cd (a ++ b) = drive loc (drive loc cd a) b := by
  simp [drive, List.foldl_append]

theorem drive_cons (loc : String) (cd : PkCompsData) (e : MarkupEvent) (b : List MarkupEvent) :
    drive loc cd (e :: b) = drive loc (comps_parser_table loc cd e) b := rfl

theorem drive_nil (loc : String) (cd : PkCompsData) : drive loc cd [] = cd := rfl

theorem groupStart_calm (loc n : String) (av : List String) (s : PkCompsState) (m : Bool)
    (hg : n ≠ "group") (hp : n ≠ "packagereq" ∨ m = false) (hs : Calm m s) :
    Calm m (groupStart loc n av s) := by
  unfold groupStart
  have hne : s ≠ COMPS_STATE_GROUP := by
    rcases hs with h | h | ⟨h, _⟩ <;> simp [h]
  rw [if_neg hg]
  split_ifs <;> simp_all [Calm]

theorem stop_calm (n : String) (cd : PkCompsData) (s : PkCompsState) (m : Bool)
    (ps : List (Option String)) (hg : n ≠ "group") (hc : n ≠ "category") (hs : Calm m s) :
    ∃ s', Calm m s' ∧ pk_comps_end_element n (cd.moved s m ps) = cd.moved s' m ps := by
  rw [stop_moved]
  refine ⟨if m = true ∧ (n = "groupid" ∨ n = "packagereq" ∨ n = "description")
    then COMPS_STATE_IGNORE else s, ?_, ?_⟩
  · split_ifs
    · exact Or.inl rfl
    · exact hs
  · simp [hg, hc]

theorem leaf_calm (loc : String) (cd : PkCompsData) (hq : cd.query = COMPS_QUERY_GROUP)
    (l : Leaf) (s : PkCompsState) (m : Bool) (ps : List (Option String))
    (hw : l.wellFormed = true) (hs : Calm m s) :
    ∃ s', Calm m s' ∧
      drive loc (cd.moved s m ps) l.events =
        cd.moved s' m (ps ++ if m = true then l.packagereq.map some else []) := by
  obtain ⟨n, a, t⟩ := l
  simp only [Leaf.wellFormed, Bool.and_eq_true, decide_eq_true_eq] at hw
  obtain ⟨hg, hc⟩ := hw
  simp only [Leaf.events, drive_cons, comps_parser_table, start_moved loc n _ cd hq]
  by_cases hp : n = "packagereq" ∧ m = true
  · obtain ⟨hn, hm⟩ := hp
    subst hn; subst hm
    refine ⟨COMPS_STATE_IGNORE, Or.inl rfl, ?_⟩
    cases t with
    | none => simp [groupStart, drive, comps_parser_table, stop_moved, Leaf.packagereq]
    | some t =>
      simp [groupStart, drive, comps_parser_table, stop_moved, Leaf.packagereq, text_pkgreq]
  · have hp' : n ≠ "packagereq" ∨ m = false := by
      by_cases hn : n = "packagereq"
      · right; cases m <;> simp_all
      · left; exact hn
    have h1 := groupStart_calm loc n (a.map Prod.snd) s m hg hp' hs
    have hnil : (if m = true then (Leaf.packagereq ⟨n, a, t⟩).map some else []) = [] := by
      rcases hp' with h | h
      · simp [Leaf.packagereq, h]
      · simp [h]
    rw [hnil, List.append_nil]
    obtain ⟨s', hs', he⟩ := stop_calm n cd (groupStart loc n (a.map Prod.snd) s) m ps hg hc h1
    refine ⟨s', hs', ?_⟩
    cases t with
    | none => simpa [drive, comps_parser_table] using he
    | some t => simpa [drive, comps_parser_table, text_calm _ _ _ _ _ h1] using he

theorem entries_calm (loc : String) (cd : PkCompsData) (hq : cd.query = COMPS_QUERY_GROUP)
    (m : Bool) (es : List Entry) :
    ∀ (s : PkCompsState) (ps : List (Option String)),
      es.all Entry.wellFormed = true → Calm m s →
      ∃ s', Calm m s' ∧
        drive loc (cd.moved s m ps) (entriesEvents es) =
          cd.moved s' m (ps ++ if m = true then (entriesPackagereqs es).map some else []) := by
  induction es with
  | nil =>
    intro s ps _ hs
    exact ⟨s, hs, by simp [entriesEvents, entriesPackagereqs, drive_nil]⟩
  | cons e es ih =>
    intro s ps hw hs
    simp only [List.all_cons, Bool.and_eq_true] at hw
    obtain ⟨hwe, hwes⟩ := hw
    cases e with
    | blank t =>
      obtain ⟨s', hs', h⟩ := ih s ps hwes hs
      refine ⟨s', hs', ?_⟩
      simp only [entriesEvents, Entry.events, List.singleton_append, drive_cons,
        comps_parser_table, text_calm t cd s m ps hs, entriesPackagereqs]
      exact h
    | leaf l =>
      obtain ⟨s1, hs1, h1⟩ := leaf_calm loc cd hq l s m ps hwe hs
      obtain ⟨s', hs', h⟩ := ih s1 (ps ++ if m = true then l.packagereq.map some else []) hwes hs1
      refine ⟨s', hs', ?_⟩
      simp only [entriesEvents, Entry.events, drive_append, h1, h, entriesPackagereqs]
      cases m <;> simp

theorem field_calm (loc : String) (cd : PkCompsData) (hq : cd.query = COMPS_QUERY_GROUP)
    (m : Bool) (f : Field) (s : PkCompsState) (ps : List (Option String))
    (hw : f.wellFormed = true) (hs : Calm m s) :
    ∃ s', Calm m s' ∧
      drive loc (cd.moved s m ps) f.events =
        cd.moved s' m (ps ++ if m = true then (fieldsPackagereqs [f]).map some else []) := by
  cases f with
  | blank t =>
    refine ⟨s, hs, ?_⟩
    simp [Field.events, drive_cons, drive_nil, comps_parser_table, text_calm t cd s m ps hs,
      fieldsPackagereqs]
  | leaf l =>
    obtain ⟨s1, hs1, h1⟩ := leaf_calm loc cd hq l s m ps hw hs
    exact ⟨s1, hs1, by simpa [Field.events, fieldsPackagereqs] using h1⟩
  | list n a es =>
    simp only [Field.wellFormed, Bool.and_eq_true, decide_eq_true_eq] at hw
    obtain ⟨⟨⟨hg, hc⟩, hp⟩, hes⟩ := hw
    have h0 := groupStart_calm loc n (a.map Prod.snd) s m hg (Or.inl hp) hs
    obtain ⟨s1, hs1, h1⟩ := entries_calm loc cd hq m es _ ps hes h0
    obtain ⟨s', hs', h⟩ := stop_calm n cd s1 m
      (ps ++ if m = true then (entriesPackagereqs es).map some else []) hg hc hs1
    refine ⟨s', hs', ?_⟩
    simp only [Field.events, drive_cons, comps_parser_table, start_moved loc n _ cd hq,
      drive_append, h1, drive_nil, h, fieldsPackagereqs, List.append_nil]

theorem fieldsPackagereqs_cons (f : Field) (fs : List Field) :
    fieldsPackagereqs (f :: fs) = fieldsPackagereqs [f] ++ fieldsPackagereqs fs := by
  cases f <;> simp [fieldsPackagereqs]

theorem fields_calm (loc : String) (cd : PkCompsData) (hq : cd.query = COMPS_QUERY_GROUP)
    (m : Bool) (fs : List Field) :
    ∀ (s : PkCompsState) (ps : List (Option String)),
      fs.all Field.wellFormed = true → Calm m s →
      ∃ s', Calm m s' ∧
        drive loc (cd.moved s m ps) (fieldsEvents fs) =
          cd.moved s' m (ps ++ if m = true then (fieldsPackagereqs fs).map some else []) := by
  induction fs with
  | nil =>
    intro s ps _ hs
    exact ⟨s, hs, by simp [fieldsEvents, fieldsPackagereqs, drive_nil]⟩
  | cons f fs ih =>
    intro s ps hw hs
    simp only [List.all_cons, Bool.and_eq_true] at hw
    obtain ⟨hwf, hwfs⟩ := hw
    obtain ⟨s1, hs1, h1⟩ := field_calm loc cd hq m f s ps hwf hs
    obtain ⟨s', hs', h⟩ :=
      ih s1 (ps ++ if m = true then (fieldsPackagereqs [f]).map some else []) hwfs hs1
    refine ⟨s', hs', ?_⟩
    simp only [fieldsEvents, drive_append, h1, h]
    rw [fieldsPackagereqs_cons f fs]
    cases m <;> simp

theorem ne_of_blank (t target : String) (ht : isBlank t = true) (hb : isBlank target = false) :
    ¬ target = t := by
  intro h
  rw [h, ht] at hb
  exact Bool.noConfusion hb

theorem skipBlank_group (loc : String) (cd : PkCompsData) (ps : List (Option String))
    (fs : List Field) :
    drive loc (cd.moved COMPS_STATE_GROUP false ps) (fieldsEvents fs) =
      drive loc (cd.moved COMPS_STATE_GROUP false ps) (fieldsEvents (skipBlank fs)) := by
  induction fs with
  | nil => rfl
  | cons f fs ih =>
    cases f with
    | blank t =>
      simp only [fieldsEvents, Field.events, List.singleton_append, drive_cons,
        comps_parser_table, text_group, skipBlank]
      exact ih
    | leaf l => rfl
    | list n a es => rfl

theorem skipBlank_group_id (loc : String) (cd : PkCompsData) (m : Bool)
    (ps : List (Option String)) (hb : isBlank cd.current_query = false) (fs : List Field)
    (hw : fs.all Field.wellFormed = true) :
    drive loc (cd.moved COMPS_STATE_GROUP_ID m ps) (fieldsEvents fs) =
      drive loc (cd.moved COMPS_STATE_GROUP_ID m ps) (fieldsEvents (skipBlank fs)) := by
  induction fs with
  | nil => rfl
  | cons f fs ih =>
    simp only [List.all_cons, Bool.and_eq_true] at hw
    cases f with
    | blank t =>
      have hne : ¬ cd.current_query = t := ne_of_blank t _ (by simpa [Field.wellFormed] using hw.1) hb
      simp only [fieldsEvents, Field.events, List.singleton_append, drive_cons,
        comps_parser_table, text_group_id, skipBlank, hne, decide_False, Bool.or_false]
      exact ih hw.2
    | leaf l => rfl
    | list n a es => rfl

theorem skipBlank_unitId (fs : List Field) : unitId (skipBlank fs) = unitId fs := by
  induction fs with
  | nil => rfl
  | cons f fs ih => cases f <;> simp [skipBlank, unitId, ih]

theorem skipBlank_packagereqs (fs : List Field) :
    fieldsPackagereqs (skipBlank fs) = fieldsPackagereqs fs := by
  induction fs with
  | nil => rfl
  | cons f fs ih => cases f <;> simp [skipBlank, fieldsPackagereqs, ih]

theorem skipBlank_wellFormed (fs : List Field) (hw : fs.all Field.wellFormed = true) :
    (skipBlank fs).all Field.wellFormed = true := by
  induction fs with
  | nil => rfl
  | cons f fs ih =>
    cases f with
    | blank t =>
      simp only [List.all_cons, Bool.and_eq_true] at hw
      simpa [skipBlank] using ih hw.2
    | leaf l => simpa [skipBlank] using hw
    | list n a es => simpa [skipBlank] using hw

theorem groupStart_enumerated (loc n : String) (av : List String) (s : PkCompsState)
    (hn : n ∈ enumeratedFields) :
    groupStart loc n av s = groupStart loc n av COMPS_STATE_IGNORE := by
  simp only [enumeratedFields, List.mem_cons, List.mem_singleton, List.not_mem_nil,
    or_false] at hn
  rcases hn with h | h | h | h | h | h <;> subst h <;> simp [groupStart]

theorem enumerated_first (loc : String) (cd : PkCompsData) (hq : cd.query = COMPS_QUERY_GROUP)
    (m : Bool) (ps : List (Option String)) (f : Field) (fs : List Field) (n : String)
    (hf : f.elementName = some n) (hn : n ∈ enumeratedFields) (s : PkCompsState) :
    drive loc (cd.moved s m ps) (fieldsEvents (f :: fs)) =
      drive loc (cd.moved COMPS_STATE_IGNORE m ps) (fieldsEvents (f :: fs)) := by
  cases f with
  | blank t => simp [Field.elementName] at hf
  | leaf l =>
    simp only [Field.elementName, Option.some.injEq] at hf
    subst hf
    simp only [fieldsEvents, Field.events, Leaf.events, List.cons_append, drive_cons,
      comps_parser_table, start_moved loc _ _ cd hq]
    rw [groupStart_enumerated loc _ _ s hn]
  | list n' a es =>
    simp only [Field.elementName, Option.some.injEq] at hf
    subst hf
    simp only [fieldsEvents, Field.events, List.cons_append, drive_cons,
      comps_parser_table, start_moved loc _ _ cd hq]
    rw [groupStart_enumerated loc _ _ s hn]

theorem calm_false (m : Bool) (s : PkCompsState) (h : Calm m s) : Calm false s := by
  rcases h with h | h | ⟨h, _⟩
  · exact Or.inl h
  · exact Or.inr (Or.inl h)
  · exact Or.inr (Or.inr ⟨h, rfl⟩)

theorem id_leaf (loc : String) (cd : PkCompsData) (hq : cd.query = COMPS_QUERY_GROUP)
    (ps : List (Option String)) (a : List (String × String)) (t : Option String) :
    drive loc (cd.moved COMPS_STATE_GROUP false ps) (Leaf.events ⟨"id", a, t⟩) =
      cd.moved COMPS_STATE_GROUP_ID (decide (t = some cd.current_query)) ps := by
  cases t with
  | none =>
    simp [Leaf.events, drive_cons, drive_nil, comps_parser_table, start_moved loc _ _ cd hq,
      groupStart, stop_moved]
  | some t =>
    by_cases h : cd.current_query = t
    · simp [Leaf.events, drive_cons, drive_nil, comps_parser_table, start_moved loc _ _ cd hq,
        groupStart, stop_moved, text_group_id, h]
    · have h' : ¬ t = cd.current_query := fun e => h e.symm
      simp [Leaf.events, drive_cons, drive_nil, comps_parser_table, start_moved loc _ _ cd hq,
        groupStart, stop_moved, text_group_id, h, h']

theorem group_fields (loc : String) (cd : PkCompsData) (hq : cd.query = COMPS_QUERY_GROUP)
    (hb : isBlank cd.current_query = false) (ps : List (Option String)) (fs : List Field)
    (hw : fs.all Field.wellFormed = true) (hl : groupLayout fs = true) :
    ∃ s', Calm (decide (unitId fs = some cd.current_query)) s' ∧
      drive loc (cd.moved COMPS_STATE_GROUP false ps) (fieldsEvents fs) =
        cd.moved s' (decide (unitId fs = some cd.current_query))
          (ps ++ if unitId fs = some cd.current_query
            then (fieldsPackagereqs fs).map some else []) := by
  rw [skipBlank_group, ← skipBlank_unitId fs, ← skipBlank_packagereqs fs]
  have hw1 := skipBlank_wellFormed fs hw
  unfold groupLayout at hl
  generalize skipBlank fs = gs at hl hw1
  match gs, hl, hw1 with
  | .leaf ⟨n, a, t⟩ :: rest, hl, hw1 =>
    simp only [Bool.and_eq_true, decide_eq_true_eq] at hl
    obtain ⟨hid, hrest⟩ := hl
    subst hid
    simp only [List.all_cons, Bool.and_eq_true] at hw1
    have hw2 := skipBlank_wellFormed rest hw1.2
    have hu : unitId (Field.leaf ⟨"id", a, t⟩ :: rest) = t := by simp [unitId]
    have hp : fieldsPackagereqs (Field.leaf ⟨"id", a, t⟩ :: rest) =
        fieldsPackagereqs (skipBlank rest) := by
      simp [fieldsPackagereqs, Leaf.packagereq, skipBlank_packagereqs]
    rw [hu, hp]
    have hd : drive loc (cd.moved COMPS_STATE_GROUP false ps)
        (fieldsEvents (Field.leaf ⟨"id", a, t⟩ :: rest)) =
        drive loc (cd.moved COMPS_STATE_GROUP_ID (decide (t = some cd.current_query)) ps)
          (fieldsEvents (skipBlank rest)) := by
      rw [← skipBlank_group_id loc cd _ ps hb rest hw1.2]
      simp only [fieldsEvents, Field.events, drive_append, id_leaf loc cd hq]
    rw [hd]
    generalize skipBlank rest = hs at hrest hw2
    match hs, hrest, hw2 with
    | f :: rest', hrest, hw2 =>
      simp only at hrest
      cases hf : f.elementName with
      | none => simp [hf] at hrest
      | some n' =>
        simp only [hf, decide_eq_true_eq] at hrest
        rw [enumerated_first loc cd hq _ ps f rest' n' hf hrest]
        obtain ⟨s', hs', h⟩ := fields_calm loc cd hq (decide (t = some cd.current_query))
          (f :: rest') COMPS_STATE_IGNORE ps hw2 (Or.inl rfl)
        refine ⟨s', hs', ?_⟩
        rw [h]
        by_cases ht : t = some cd.current_query <;> simp [ht]

theorem item_calm (loc : String) (cd : PkCompsData) (hq : cd.query = COMPS_QUERY_GROUP)
    (hb : isBlank cd.current_query = false) (i : Item) (s : PkCompsState)
    (ps : List (Option String)) (hw : i.wellFormed = true) (hl : i.idFirst = true)
    (hs : Calm false s) :
    ∃ s', Calm false s' ∧
      drive loc (cd.moved s false ps) i.events =
        cd.moved s' false (ps ++ (groupPackages cd.current_query [i]).map some) := by
  cases i with
  | blank t =>
    refine ⟨s, hs, ?_⟩
    simp [Item.events, drive_cons, drive_nil, comps_parser_table, text_calm t cd s false ps hs,
      groupPackages]
  | unit n a fs =>
    simp only [Item.wellFormed] at hw
    by_cases hn : n = "group"
    · subst hn
      simp only [Item.idFirst, if_true] at hl
      obtain ⟨s1, hs1, h1⟩ := group_fields loc cd hq hb ps fs hw hl
      refine ⟨s1, calm_false _ _ hs1, ?_⟩
      simp only [Item.events, drive_cons, comps_parser_table, start_moved loc _ _ cd hq,
        drive_append, drive_nil, groupPackages, List.append_nil]
      have hg : groupStart loc "group" (a.map Prod.snd) s = COMPS_STATE_GROUP := by
        simp [groupStart]
      rw [hg, h1, stop_moved]
      by_cases hu : unitId fs = some cd.current_query <;> simp [hu]
    · have h0 := groupStart_calm loc n (a.map Prod.snd) s false hn (Or.inr rfl) hs
      obtain ⟨s1, hs1, h1⟩ := fields_calm loc cd hq false fs _ ps hw h0
      refine ⟨s1, hs1, ?_⟩
      simp only [Item.events, drive_cons, comps_parser_table, start_moved loc _ _ cd hq,
        drive_append, drive_nil, groupPackages, h1, stop_moved]
      simp [hn]

theorem groupPackages_cons (target : String) (i : Item) (is : List Item) :
    groupPackages target (i :: is) = groupPackages target [i] ++ groupPackages target is := by
  cases i with
  | blank t => simp [groupPackages]
  | unit n a fs =>
    by_cases h : n = "group" ∧ unitId fs = some target <;> simp [groupPackages, h]

theorem items_calm (loc : String) (cd : PkCompsData) (hq : cd.query = COMPS_QUERY_GROUP)
    (hb : isBlank cd.current_query = false) (is : List Item) :
    ∀ (s : PkCompsState) (ps : List (Option String)),
      is.all Item.wellFormed = true → is.all Item.idFirst = true → Calm false s →
      ∃ s', Calm false s' ∧
        drive loc (cd.moved s false ps) (itemsEvents is) =
          cd.moved s' false (ps ++ (groupPackages cd.current_query is).map some) := by
  induction is with
  | nil =>
    intro s ps _ _ hs
    exact ⟨s, hs, by simp [itemsEvents, groupPackages, drive_nil]⟩
  | cons i is ih =>
    intro s ps hw hl hs
    simp only [List.all_cons, Bool.and_eq_true] at hw hl
    obtain ⟨s1, hs1, h1⟩ := item_calm loc cd hq hb i s ps hw.1 hl.1 hs
    obtain ⟨s', hs', h⟩ :=
      ih s1 (ps ++ (groupPackages cd.current_query [i]).map some) hw.2 hl.2 hs1
    refine ⟨s', hs', ?_⟩
    simp only [itemsEvents, drive_append, h1, h]
    rw [groupPackages_cons cd.current_query i is]
    simp

theorem catalog_calm (loc : String) (cd : PkCompsData) (hq : cd.query = COMPS_QUERY_GROUP)
    (hb : isBlank cd.current_query = false) (c : Catalog) (s : PkCompsState)
    (ps : List (Option String)) (hw : c.wellFormed = true) (hl : c.idFirst = true)
    (hs : Calm false s) :
    ∃ s', Calm false s' ∧
      drive loc (cd.moved s false ps) c.events =
        cd.moved s' false (ps ++ (groupPackages cd.current_query c.items).map some) := by
  have h0 : groupStart loc "comps" [] s = s := by simp [groupStart]
  obtain ⟨s', hs', h⟩ := items_calm loc cd hq hb c.items s ps hw hl hs
  refine ⟨s', hs', ?_⟩
  simp only [Catalog.events, drive_cons, comps_parser_table, start_moved loc _ _ cd hq,
    drive_append, drive_nil, List.map_nil, h0, h, stop_moved]
  simp

theorem loop_catalogs (loc : String) (cd : PkCompsData) (hq : cd.query = COMPS_QUERY_GROUP)
    (hb : isBlank cd.current_query = false) (cs : List Catalog) :
    ∀ (s : PkCompsState) (ps : List (Option String)),
      cs.all Catalog.wellFormed = true → cs.all Catalog.idFirst = true → Calm false s →
      ∃ s', Calm false s' ∧
        pk_backend_comps_parser_loop loc (cs.map catalogFile) (cd.moved s false ps) =
          (true, cd.moved s' false (ps ++ (catalogsPackages cd.current_query cs).map some)) := by
  induction cs with
  | nil =>
    intro s ps _ _ hs
    exact ⟨s, hs, by simp [pk_backend_comps_parser_loop, catalogsPackages]⟩
  | cons c cs ih =>
    intro s ps hw hl hs
    simp only [List.all_cons, Bool.and_eq_true] at hw hl
    obtain ⟨s1, hs1, h1⟩ := catalog_calm loc cd hq hb c s ps hw.1 hl.1 hs
    obtain ⟨s', hs', h⟩ :=
      ih s1 (ps ++ (groupPackages cd.current_query c.items).map some) hw.2 hl.2 hs1
    refine ⟨s', hs', ?_⟩
    simp only [List.map_cons, catalogFile, pk_backend_comps_parser_loop, h1, if_true]
    rw [h]
    simp [catalogsPackages]

theorem groupPackages_eq_foldr (target : String) (is : List Item) :
    groupPackages target is =
      List.foldr (fun fs acc => fieldsPackagereqs fs ++ acc) [] (groupsWithId target is) := by
  induction is with
  | nil => rfl
  | cons i is ih =>
    cases i with
    | blank t => simpa [groupPackages, groupsWithId] using ih
    | unit n a fs =>
      by_cases h : n = "group" ∧ unitId fs = some target
      · simp [groupPackages, groupsWithId, h, ih]
      · simp [groupPackages, groupsWithId, h, ih]

theorem moved_self (cd : PkCompsData) :
    cd.moved cd.category_state cd.query_match cd.packages = cd := rfl

theorem parser_call_catalogs (loc : String) (cd : PkCompsData) (cs : List Catalog)
    (hq : cd.query = COMPS_QUERY_GROUP) (hm : cd.query_match = false)
    (hc : cd.comps = cs.map catalogFile) (hb : isBlank cd.current_query = false)
    (hw : cs.all Catalog.wellFormed = true) (hl : cs.all Catalog.idFirst = true) :
    ∃ s', pk_backend_comps_parser_call loc cd =
      (true, cd.moved s' false
        (cd.packages ++ (catalogsPackages cd.current_query cs).map some)) := by
  obtain ⟨s', _, h⟩ := loop_catalogs loc cd hq hb cs COMPS_STATE_IGNORE cd.packages hw hl
    (Or.inl rfl)
  refine ⟨s', ?_⟩
  rw [← h, pk_backend_comps_parser_call, hc]
  congr 1
  cases cd
  simp_all [PkCompsData.moved]

theorem groupsLoop_catalogs (loc : String) (cs : List Catalog)
    (hw : cs.all Catalog.wellFormed = true) (hl : cs.all Catalog.idFirst = true)
    (ids : List String) :
    ∀ (cd : PkCompsData), cd.query = COMPS_QUERY_GROUP → cd.query_match = false →
      cd.comps = cs.map catalogFile → (∀ id ∈ ids, isBlank id = false) →
      (groupsLoop loc ids cd).packages =
        cd.packages ++ (ids.flatMap (fun id => catalogsPackages id cs)).map some := by
  induction ids with
  | nil => intro cd _ _ _ _; simp [groupsLoop]
  | cons id ids ih =>
    intro cd hq hm hc hb
    obtain ⟨s', h⟩ := parser_call_catalogs loc { cd with current_query := id } cs hq hm hc
      (hb id (List.mem_cons_self _ _)) hw hl
    have step : groupsLoop loc (id :: ids) cd =
        groupsLoop loc ids (pk_backend_comps_parser_call loc { cd with current_query := id }).2 :=
      rfl
    rw [step, h]
    have hnext := ih
      (PkCompsData.moved { cd with current_query := id } s' false
        (cd.packages ++ (catalogsPackages id cs).map some))
      hq rfl hc (fun i hi => hb i (List.mem_cons_of_mem _ hi))
    simp only [] at hnext ⊢
    rw [hnext]
    simp [PkCompsData.moved, List.flatMap_cons]

theorem strvItems_some (xs : List String) (rest : List (Option String)) :
    strvItems (xs.map some ++ none :: rest) = xs := by
  induction xs with
  | nil => rfl
  | cons x xs ih => simp [strvItems, ih]

theorem get_packages_eq_groupsLoop (loc : String) (ids : List String) (cd : PkCompsData) :
    (pk_backend_get_packages_from_group loc (pk_ptr_array_to_strv (ids.map some)) cd).1 =
      (groupsLoop loc ids { cd with query := COMPS_QUERY_GROUP, packages := [] }).packages ++
        [none, none] := by
  simp [pk_backend_get_packages_from_group, pk_ptr_array_to_strv, strvItems_some, groupsLoop]

theorem get_packages_catalogs (loc : String) (cs : List Catalog) (ids : List String)
    (cd : PkCompsData) (hw : cs.all Catalog.wellFormed = true)
    (hl : cs.all Catalog.idFirst = true) (hm : cd.query_match = false)
    (hc : cd.comps = cs.map catalogFile) (hb : ∀ id ∈ ids, isBlank id = false) :
    strvItems
        (pk_backend_get_packages_from_group loc (pk_ptr_array_to_strv (ids.map some)) cd).1 =
      ids.flatMap (fun id => catalogsPackages id cs) := by
  rw [get_packages_eq_groupsLoop,
    groupsLoop_catalogs loc cs hw hl ids
      { cd with query := COMPS_QUERY_GROUP, packages := [] } rfl hm hc hb]
  simp [strvItems_some]

theorem catalogsPackages_absent (target : String) (cs : List Catalog)
    (ha : cs.all (fun c => !c.hasGroup target) = true) : catalogsPackages target cs = [] := by
  induction cs with
  | nil => rfl
  | cons c cs ih =>
    simp only [List.all_cons, Bool.and_eq_true] at ha
    have h1 : groupsWithId target c.items = [] := by
      simpa [Catalog.hasGroup] using ha.1
    simp [catalogsPackages, groupPackages_eq_foldr, h1, ih ha.2]

theorem start_category (n : String) (loc : String) (av : List String) (cd : PkCompsData)
    (hq : cd.query = COMPS_QUERY_CATEGORY) :
    pk_comps_start_element loc n av cd =
      { cd with category_state := categoryStart n cd.category_state } := by
  cases cd with
  | mk cq qm gs ps cs s q =>
  simp only at hq
  subst hq
  simp only [pk_comps_start_element, categoryStart]
  by_cases h1 : n = "category"
  · subst h1; simp
  by_cases h2 : n = "id"
  · subst h2; by_cases hs : s = COMPS_STATE_CATEGORY <;> simp [hs]
  by_cases h3 : n = "groupid"
  · subst h3; simp
  by_cases h4 : n = "name"
  · subst h4; simp
  by_cases h5 : n = "description"
  · subst h5; simp
  by_cases h6 : n = "display_order"
  · subst h6; simp
  by_cases h7 : n = "grouplist"
  · subst h7; simp
  simp [h1, h2, h3, h4, h5, h6, h7]

theorem start_closed (loc n : String) (av : List String) (cd : PkCompsData) :
    pk_comps_start_element loc n av cd =
      { cd with category_state := startState loc n av cd.query cd.category_state } := by
  cases hq : cd.query with
  | COMPS_QUERY_CATEGORY =>
    rw [start_category n loc av cd hq]
    cases cd
    simp_all [startState]
  | COMPS_QUERY_GROUP =>
    have h := start_moved loc n av cd hq cd.category_state cd.query_match cd.packages
    rw [moved_self] at h
    rw [h]
    cases cd
    simp_all [startState, PkCompsData.moved]

theorem text_closed (t : String) (cd : PkCompsData) :
    pk_comps_element_text t cd =
      { cd with
        query_match := textMatch t cd
        groups :=
          if textMatch t cd = true ∧ cd.category_state = COMPS_STATE_CATEGORY_GROUPID
          then cd.groups ++ [some t] else cd.groups
        packages :=
          if textMatch t cd = true ∧ cd.category_state = COMPS_STATE_GROUP_PKGREQ
          then cd.packages ++ [some t] else cd.packages } := by
  cases cd with
  | mk cq qm gs ps cs s q =>
  by_cases h : cq = t <;> cases qm <;> cases s <;>
    simp [pk_comps_element_text, textMatch, h]

theorem stop_closed (n : String) (cd : PkCompsData) :
    pk_comps_end_element n cd =
      { cd with
        category_state :=
          if cd.query_match = true ∧ (n = "groupid" ∨ n = "packagereq" ∨ n = "description")
          then COMPS_STATE_IGNORE else cd.category_state
        query_match :=
          cd.query_match && decide (n ≠ "category") && decide (n ≠ "group") } := by
  have h := stop_moved n cd cd.category_state cd.query_match cd.packages
  rw [moved_self] at h
  rw [h]
  rfl

theorem table_reframe (loc : String) (files : List CompsFile) (gs ps : List (Option String))
    (cd : PkCompsData) (e : MarkupEvent) :
    comps_parser_table loc (cd.reframe files gs ps) e =
      (comps_parser_table loc cd e).reframe files gs ps := by
  cases e with
  | start n a =>
    simp only [comps_parser_table, start_closed]
    rfl
  | text t =>
    simp only [comps_parser_table, text_closed, PkCompsData.reframe, textMatch]
    split_ifs <;> simp_all
  | stop n =>
    simp only [comps_parser_table, stop_closed]
    rfl

theorem drive_reframe (loc : String) (files : List CompsFile) (gs ps : List (Option String))
    (evs : List MarkupEvent) :
    ∀ cd : PkCompsData,
      drive loc (cd.reframe files gs ps) evs = (drive loc cd evs).reframe files gs ps := by
  induction evs with
  | nil => intro cd; rfl
  | cons e evs ih =>
    intro cd
    rw [drive_cons, drive_cons, table_reframe, ih]

theorem loop_reframe (loc : String) (files : List CompsFile) (gs ps : List (Option String))
    (fs : List CompsFile) :
    ∀ cd : PkCompsData,
      pk_backend_comps_parser_loop loc fs (cd.reframe files gs ps) =
        ((pk_backend_comps_parser_loop loc fs cd).1,
          (pk_backend_comps_parser_loop loc fs cd).2.reframe files gs ps) := by
  induction fs with
  | nil => intro cd; rfl
  | cons f fs ih =>
    intro cd
    cases f with
    | unreadable => rfl
    | markup evs ok =>
      cases ok with
      | false => simp [pk_backend_comps_parser_loop, drive_reframe]
      | true => simp [pk_backend_comps_parser_loop, drive_reframe, ih]

theorem parser_call_cleared (loc : String) (cd : PkCompsData) :
    pk_backend_comps_parser_call loc cd =
      ((pk_backend_comps_parser_call loc cd.cleared).1,
        (pk_backend_comps_parser_call loc cd.cleared).2.reframe cd.comps cd.groups
          cd.packages) := by
  have h : ({ cd with category_state := COMPS_STATE_IGNORE } : PkCompsData) =
      cd.cleared.reframe cd.comps cd.groups cd.packages := by
    simp [PkCompsData.cleared, PkCompsData.reframe]
  have h2 : pk_backend_comps_parser_call loc cd.cleared =
      pk_backend_comps_parser_loop loc cd.comps cd.cleared := rfl
  rw [h2]
  show pk_backend_comps_parser_loop loc cd.comps { cd with category_state := COMPS_STATE_IGNORE } = _
  rw [h, loop_reframe]

theorem table_static (loc : String) (cd : PkCompsData) (e : MarkupEvent) :
    (comps_parser_table loc cd e).current_query = cd.current_query ∧
      (comps_parser_table loc cd e).comps = cd.comps ∧
      (comps_parser_table loc cd e).query = cd.query := by
  cases e with
  | start n a => simp [comps_parser_table, start_closed]
  | text t => simp [comps_parser_table, text_closed]
  | stop n => simp [comps_parser_table, stop_closed]

theorem drive_static (loc : String) (evs : List MarkupEvent) :
    ∀ cd : PkCompsData,
      (drive loc cd evs).current_query = cd.current_query ∧
        (drive loc cd evs).comps = cd.comps ∧ (drive loc cd evs).query = cd.query := by
  induction evs with
  | nil => intro cd; exact ⟨rfl, rfl, rfl⟩
  | cons e evs ih =>
    intro cd
    rw [drive_cons]
    obtain ⟨h1, h2, h3⟩ := ih (comps_parser_table loc cd e)
    obtain ⟨t1, t2, t3⟩ := table_static loc cd e
    exact ⟨h1.trans t1, h2.trans t2, h3.trans t3⟩

theorem loop_static (loc : String) (fs : List CompsFile) :
    ∀ cd : PkCompsData,
      (pk_backend_comps_parser_loop loc fs cd).2.current_query = cd.current_query ∧
        (pk_backend_comps_parser_loop loc fs cd).2.comps = cd.comps ∧
        (pk_backend_comps_parser_loop loc fs cd).2.query = cd.query := by
  induction fs with
  | nil => intro cd; exact ⟨rfl, rfl, rfl⟩
  | cons f fs ih =>
    intro cd
    cases f with
    | unreadable => exact ⟨rfl, rfl, rfl⟩
    | markup evs ok =>
      cases ok with
      | false => simpa [pk_backend_comps_parser_loop] using drive_static loc evs cd
      | true =>
        obtain ⟨h1, h2, h3⟩ := ih (drive loc cd evs)
        obtain ⟨t1, t2, t3⟩ := drive_static loc evs cd
        simp only [pk_backend_comps_parser_loop, if_true]
        exact ⟨h1.trans t1, h2.trans t2, h3.trans t3⟩

theorem parser_call_static (loc : String) (cd : PkCompsData) :
    (pk_backend_comps_parser_call loc cd).2.current_query = cd.current_query ∧
      (pk_backend_comps_parser_call loc cd).2.comps = cd.comps ∧
      (pk_backend_comps_parser_call loc cd).2.query = cd.query :=
  loop_static loc cd.comps { cd with category_state := COMPS_STATE_IGNORE }

theorem table_packages_some (loc : String) (cd : PkCompsData) (e : MarkupEvent) :
    ∃ l : List String, (comps_parser_table loc cd e).packages = cd.packages ++ l.map some := by
  cases e with
  | start n a => exact ⟨[], by simp [comps_parser_table, start_closed]⟩
  | text t =>
    by_cases h : textMatch t cd = true ∧ cd.category_state = COMPS_STATE_GROUP_PKGREQ
    · exact ⟨[t], by simp [comps_parser_table, text_closed, h]⟩
    · exact ⟨[], by simp [comps_parser_table, text_closed, h]⟩
  | stop n => exact ⟨[], by simp [comps_parser_table, stop_closed]⟩

theorem drive_packages_some (loc : String) (evs : List MarkupEvent) :
    ∀ cd : PkCompsData,
      ∃ l : List String, (drive loc cd evs).packages = cd.packages ++ l.map some := by
  induction evs with
  | nil => intro cd; exact ⟨[], by simp [drive_nil]⟩
  | cons e evs ih =>
    intro cd
    obtain ⟨l1, h1⟩ := table_packages_some loc cd e
    obtain ⟨l2, h2⟩ := ih (comps_parser_table loc cd e)
    exact ⟨l1 ++ l2, by rw [drive_cons, h2, h1]; simp⟩

theorem loop_packages_some (loc : String) (fs : List CompsFile) :
    ∀ cd : PkCompsData,
      ∃ l : List String,
        (pk_backend_comps_parser_loop loc fs cd).2.packages = cd.packages ++ l.map some := by
  induction fs with
  | nil => intro cd; exact ⟨[], by simp [pk_backend_comps_parser_loop]⟩
  | cons f fs ih =>
    intro cd
    cases f with
    | unreadable => exact ⟨[], by simp [pk_backend_comps_parser_loop]⟩
    | markup evs ok =>
      obtain ⟨l1, h1⟩ := drive_packages_some loc evs cd
      cases ok with
      | false => exact ⟨l1, by simpa [pk_backend_comps_parser_loop] using h1⟩
      | true =>
        obtain ⟨l2, h2⟩ := ih (drive loc cd evs)
        exact ⟨l1 ++ l2, by simp [pk_backend_comps_parser_loop, h2, h1]⟩

theorem parser_call_packages_some (loc : String) (cd : PkCompsData) :
    ∃ l : List String,
      (pk_backend_comps_parser_call loc cd).2.packages = cd.packages ++ l.map some :=
  loop_packages_some loc cd.comps { cd with category_state := COMPS_STATE_IGNORE }

theorem cleared_eq_probe (cd : PkCompsData) (id : String) (hq : cd.query = COMPS_QUERY_GROUP)
    (hm : cd.query_match = false) :
    PkCompsData.cleared { cd with current_query := id } = probe cd.comps id := by
  cases cd
  simp_all [PkCompsData.cleared, probe]

theorem groupsLoop_step (loc : String) (cd : PkCompsData) (id : String)
    (hq : cd.query = COMPS_QUERY_GROUP) (hm : cd.query_match = false) :
    (pk_backend_comps_parser_call loc { cd with current_query := id }).2 =
      (pk_backend_comps_parser_call loc (probe cd.comps id)).2.reframe cd.comps cd.groups
        cd.packages := by
  rw [parser_call_cleared, cleared_eq_probe cd id hq hm]

theorem groupsLoop_general (loc : String) (files : List CompsFile) (ids : List String)
    (hquiet : ∀ id ∈ ids,
      (pk_backend_comps_parser_call loc (probe files id)).2.query_match = false) :
    ∀ cd : PkCompsData, cd.query = COMPS_QUERY_GROUP → cd.query_match = false →
      cd.comps = files →
      (groupsLoop loc ids cd).packages =
        cd.packages ++
          ids.flatMap (fun id => (pk_backend_comps_parser_call loc (probe files id)).2.packages) := by
  induction ids with
  | nil => intro cd _ _ _; simp [groupsLoop]
  | cons id ids ih =>
    intro cd hq hm hc
    have step : groupsLoop loc (id :: ids) cd =
        groupsLoop loc ids (pk_backend_comps_parser_call loc { cd with current_query := id }).2 :=
      rfl
    rw [step, groupsLoop_step loc cd id hq hm, hc]
    have hs := parser_call_static loc (probe files id)
    have hnext := ih (fun i hi => hquiet i (List.mem_cons_of_mem _ hi))
      ((pk_backend_comps_parser_call loc (probe files id)).2.reframe files cd.groups cd.packages)
      hs.2.2 (hquiet id (List.mem_cons_self _ _)) rfl
    rw [hnext]
    simp [PkCompsData.reframe, List.flatMap_cons]

theorem strvItems_some_append (l : List String) (rest : List (Option String)) :
    strvItems (l.map some ++ rest) = l ++ strvItems rest := by
  induction l with
  | nil => rfl
  | cons x xs ih => simp [strvItems, ih]

theorem strvItems_flatMap (δ : String → List (Option String)) (ids : List String)
    (hsome : ∀ id, ∃ l : List String, δ id = l.map some) :
    strvItems (ids.flatMap δ ++ [none, none]) =
      ids.flatMap (fun id => strvItems (δ id ++ [none, none])) := by
  induction ids with
  | nil => rfl
  | cons id ids ih =>
    obtain ⟨l, hl⟩ := hsome id
    simp only [List.flatMap_cons, List.append_assoc, hl, strvItems_some_append, ih]
    simp [strvItems]

theorem get_packages_single (loc : String) (id : String) (cd : PkCompsData)
    (hm : cd.query_match = false) :
    (pk_backend_get_packages_from_group loc (pk_ptr_array_to_strv [some id]) cd).1 =
        (pk_backend_comps_parser_call loc (probe cd.comps id)).2.packages ++ [none, none] ∧
      (pk_backend_get_packages_from_group loc (pk_ptr_array_to_strv [some id]) cd).2.query_match =
        (pk_backend_comps_parser_call loc (probe cd.comps id)).2.query_match := by
  have h := groupsLoop_step loc { cd with query := COMPS_QUERY_GROUP, packages := [] } id rfl hm
  constructor
  · have h1 := get_packages_eq_groupsLoop loc [id] cd
    simp only [List.map_cons, List.map_nil] at h1
    rw [h1]
    show (pk_backend_comps_parser_call loc _).2.packages ++ _ = _
    rw [h]
    simp [PkCompsData.reframe]
  · show (pk_backend_comps_parser_call loc _).2.query_match = _
    simp only [pk_ptr_array_to_strv, List.singleton_append, strvItems, List.foldl_cons,
      List.foldl_nil]
    rw [h]
    rfl

theorem loop_fails (loc : String) (bad : CompsFile) (post : List CompsFile)
    (hbad : bad.fails = true) (pre : List CompsFile) :
    ∀ cd : PkCompsData,
      pk_backend_comps_parser_loop loc (pre ++ bad :: post) cd =
        (false,
          (pk_backend_comps_parser_loop loc (pre ++ [CompsFile.markup bad.delivered true])
            cd).2) := by
  induction pre with
  | nil =>
    intro cd
    cases bad with
    | unreadable => rfl
    | markup evs ok =>
      cases ok with
      | false => rfl
      | true => simp [CompsFile.fails] at hbad
  | cons f pre ih =>
    intro cd
    cases f with
    | unreadable => rfl
    | markup evs ok =>
      cases ok with
      | false => rfl
      | true => simpa [pk_backend_comps_parser_loop] using ih (drive loc cd evs)

theorem loop_append_empty (loc : String) (pre : List CompsFile) :
    ∀ cd : PkCompsData,
      (pk_backend_comps_parser_loop loc (pre ++ [CompsFile.markup [] true]) cd).2 =
        (pk_backend_comps_parser_loop loc pre cd).2 := by
  induction pre with
  | nil => intro cd; rfl
  | cons f pre ih =>
    intro cd
    cases f with
    | unreadable => rfl
    | markup evs ok =>
      cases ok with
      | false => rfl
      | true => simpa [pk_backend_comps_parser_loop] using ih (drive loc cd evs)

theorem group_mapping_other (loc : String) (input : String) (cd : PkCompsData)
    (h : input ∉ aliasKeys) :
    pk_backend_group_mapping loc input cd = some (pk_ptr_array_to_strv [some input], cd) := by
  simp only [aliasKeys, List.mem_cons, List.mem_singleton, List.not_mem_nil, or_false,
    not_or] at h
  obtain ⟨h1, h2, h3, h4, h5, h6, h7, h8, h9, h10⟩ := h
  simp [pk_backend_group_mapping, h1, h2, h3, h4, h5, h6, h7, h8, h9, h10]

theorem startState_mode (loc n : String) (av : List String) (q : PkCompsQuery)
    (s : PkCompsState) (h : modeState q s = true) :
    modeState q (startState loc n av q s) = true := by
  cases q with
  | COMPS_QUERY_CATEGORY =>
    simp only [startState, categoryStart]
    split_ifs <;> first | rfl | exact h
  | COMPS_QUERY_GROUP =>
    simp only [startState, groupStart]
    split_ifs <;> first | rfl | exact h

theorem table_mode (loc : String) (cd : PkCompsData) (e : MarkupEvent)
    (h : modeState cd.query cd.category_state = true) :
    modeState (comps_parser_table loc cd e).query
      (comps_parser_table loc cd e).category_state = true := by
  cases e with
  | start n a =>
    simp only [comps_parser_table, start_closed]
    exact startState_mode loc n _ cd.query cd.category_state h
  | text t =>
    simp only [comps_parser_table, text_closed]
    exact h
  | stop n =>
    simp only [comps_parser_table, stop_closed]
    split_ifs
    · cases cd.query <;> rfl
    · exact h

theorem drive_mode (loc : String) (evs : List MarkupEvent) :
    ∀ cd : PkCompsData, modeState cd.query cd.category_state = true →
      modeState (drive loc cd evs).query (drive loc cd evs).category_state = true := by
  induction evs with
  | nil => intro cd h; exact h
  | cons e evs ih =>
    intro cd h
    rw [drive_cons]
    exact ih _ (table_mode loc cd e h)

theorem table_other_collection (loc : String) (cd : PkCompsData) (e : MarkupEvent)
    (h : modeState cd.query cd.category_state = true) :
    (cd.query = COMPS_QUERY_GROUP → (comps_parser_table loc cd e).groups = cd.groups) ∧
      (cd.query = COMPS_QUERY_CATEGORY →
        (comps_parser_table loc cd e).packages = cd.packages) := by
  cases e with
  | start n a => simp [comps_parser_table, start_closed]
  | stop n => simp [comps_parser_table, stop_closed]
  | text t =>
    simp only [comps_parser_table, text_closed]
    constructor
    · intro hq
      rw [hq] at h
      have hs : cd.category_state ≠ COMPS_STATE_CATEGORY_GROUPID := by
        intro e; rw [e] at h; exact Bool.noConfusion h
      simp [hs]
    · intro hq
      rw [hq] at h
      have hs : cd.category_state ≠ COMPS_STATE_GROUP_PKGREQ := by
        intro e; rw [e] at h; exact Bool.noConfusion h
      simp [hs]

theorem drive_other_collection (loc : String) (evs : List MarkupEvent) :
    ∀ cd : PkCompsData, modeState cd.query cd.category_state = true →
      (cd.query = COMPS_QUERY_GROUP → (drive loc cd evs).groups = cd.groups) ∧
        (cd.query = COMPS_QUERY_CATEGORY → (drive loc cd evs).packages = cd.packages) := by
  induction evs with
  | nil => intro cd _; exact ⟨fun _ => rfl, fun _ => rfl⟩
  | cons e evs ih =>
    intro cd h
    rw [drive_cons]
    have hq := (table_static loc cd e).2.2
    obtain ⟨i1, i2⟩ := ih _ (table_mode loc cd e h)
    obtain ⟨t1, t2⟩ := table_other_collection loc cd e h
    rw [hq] at i1 i2
    exact ⟨fun g => (i1 g).trans (t1 g), fun g => (i2 g).trans (t2 g)⟩

theorem loop_other_collection (loc : String) (fs : List CompsFile) :
    ∀ cd : PkCompsData, modeState cd.query cd.category_state = true →
      (cd.query = COMPS_QUERY_GROUP →
          (pk_backend_comps_parser_loop loc fs cd).2.groups = cd.groups) ∧
        (cd.query = COMPS_QUERY_CATEGORY →
          (pk_backend_comps_parser_loop loc fs cd).2.packages = cd.packages) := by
  induction fs with
  | nil => intro cd _; exact ⟨fun _ => rfl, fun _ => rfl⟩
  | cons f fs ih =>
    intro cd h
    cases f with
    | unreadable => exact ⟨fun _ => rfl, fun _ => rfl⟩
    | markup evs ok =>
      have hd := drive_other_collection loc evs cd h
      cases ok with
      | false => simpa [pk_backend_comps_parser_loop] using hd
      | true =>
        have hq := (drive_static loc evs cd).2.2
        obtain ⟨i1, i2⟩ := ih (drive loc cd evs) (drive_mode loc evs cd h)
        rw [hq] at i1 i2
        simp only [pk_backend_comps_parser_loop, if_true]
        exact ⟨fun g => (i1 g).trans (hd.1 g), fun g => (i2 g).trans (hd.2 g)⟩

theorem startState_quiet (loc n : String) (av : List String) (q : PkCompsQuery)
    (s : PkCompsState) (h : n ∉ reactiveNames) : startState loc n av q s = s := by
  simp only [reactiveNames, List.mem_cons, List.mem_singleton, List.not_mem_nil, or_false,
    not_or] at h
  obtain ⟨h1, h2, h3, h4, h5, h6, h7, h8, h9, h10, h11, h12⟩ := h
  cases q <;> simp [startState, categoryStart, groupStart, h1, h2, h3, h4, h5, h6, h7, h8,
    h9, h10, h11, h12]

theorem table_quiet_state (loc : String) (cd : PkCompsData) (e : MarkupEvent)
    (h : quietEvent e = true) :
    (comps_parser_table loc cd e).category_state = cd.category_state := by
  cases e with
  | start n a =>
    simp only [quietEvent, decide_eq_true_eq] at h
    simp [comps_parser_table, start_closed, startState_quiet loc n _ cd.query _ h]
  | text t => simp [comps_parser_table, text_closed]
  | stop n =>
    simp only [quietEvent, decide_eq_true_eq, reactiveNames, List.mem_cons,
      List.mem_singleton, List.not_mem_nil, or_false, not_or] at h
    obtain ⟨_, _, _, h4, h5, _, h7, _⟩ := h
    simp [comps_parser_table, stop_closed, h4, h5, h7]

theorem drive_quiet_state (loc : String) (evs : List MarkupEvent) :
    ∀ cd : PkCompsData, evs.all quietEvent = true →
      (drive loc cd evs).category_state = cd.category_state := by
  induction evs with
  | nil => intro cd _; rfl
  | cons e evs ih =>
    intro cd h
    simp only [List.all_cons, Bool.and_eq_true] at h
    rw [drive_cons, ih _ h.2, table_quiet_state loc cd e h.1]

theorem drive_snoc (loc : String) (cd : PkCompsData) (evs : List MarkupEvent)
    (e : MarkupEvent) :
    drive loc cd (evs ++ [e]) = comps_parser_table loc (drive loc cd evs) e := by
  rw [drive_append]
  rfl

theorem groupsLoop_packages_some (loc : String) (ids : List String) :
    ∀ cd : PkCompsData, ∃ l : List String,
      (groupsLoop loc ids cd).packages = cd.packages ++ l.map some := by
  induction ids with
  | nil => intro cd; exact ⟨[], by simp [groupsLoop]⟩
  | cons id ids ih =>
    intro cd
    obtain ⟨l1, h1⟩ := parser_call_packages_some loc { cd with current_query := id }
    obtain ⟨l2, h2⟩ := ih (pk_backend_comps_parser_call loc { cd with current_query := id }).2
    refine ⟨l1 ++ l2, ?_⟩
    have step : groupsLoop loc (id :: ids) cd =
        groupsLoop loc ids (pk_backend_comps_parser_call loc { cd with current_query := id }).2 :=
      rfl
    rw [step, h2, h1]
    simp

theorem table_groups_some (loc : String) (cd : PkCompsData) (e : MarkupEvent) :
    ∃ l : List String, (comps_parser_table loc cd e).groups = cd.groups ++ l.map some := by
  cases e with
  | start n a => exact ⟨[], by simp [comps_parser_table, start_closed]⟩
  | text t =>
    by_cases h : textMatch t cd = true ∧ cd.category_state = COMPS_STATE_CATEGORY_GROUPID
    · exact ⟨[t], by simp [comps_parser_table, text_closed, h]⟩
    · exact ⟨[], by simp [comps_parser_table, text_closed, h]⟩
  | stop n => exact ⟨[], by simp [comps_parser_table, stop_closed]⟩

theorem drive_groups_some (loc : String) (evs : List MarkupEvent) :
    ∀ cd : PkCompsData,
      ∃ l : List String, (drive loc cd evs).groups = cd.groups ++ l.map some := by
  induction evs with
  | nil => intro cd; exact ⟨[], by simp [drive_nil]⟩
  | cons e evs ih =>
    intro cd
    obtain ⟨l1, h1⟩ := table_groups_some loc cd e
    obtain ⟨l2, h2⟩ := ih (comps_parser_table loc cd e)
    exact ⟨l1 ++ l2, by rw [drive_cons, h2, h1]; simp⟩

theorem loop_groups_some (loc : String) (fs : List CompsFile) :
    ∀ cd : PkCompsData,
      ∃ l : List String,
        (pk_backend_comps_parser_loop loc fs cd).2.groups = cd.groups ++ l.map some := by
  induction fs with
  | nil => intro cd; exact ⟨[], by simp [pk_backend_comps_parser_loop]⟩
  | cons f fs ih =>
    intro cd
    cases f with
    | unreadable => exact ⟨[], by simp [pk_backend_comps_parser_loop]⟩
    | markup evs ok =>
      obtain ⟨l1, h1⟩ := drive_groups_some loc evs cd
      cases ok with
      | false => exact ⟨l1, by simpa [pk_backend_comps_parser_loop] using h1⟩
      | true =>
        obtain ⟨l2, h2⟩ := ih (drive loc cd evs)
        exact ⟨l1 ++ l2, by simp [pk_backend_comps_parser_loop, h2, h1]⟩

theorem parser_call_groups_some (loc : String) (cd : PkCompsData) :
    ∃ l : List String,
      (pk_backend_comps_parser_call loc cd).2.groups = cd.groups ++ l.map some :=
  loop_groups_some loc cd.comps { cd with category_state := COMPS_STATE_IGNORE }

set_option maxRecDepth 16384 in
theorem get_groups_after_failed_parse :
    (pk_backend_comps_parser_call "C"
        { failingParseContext with
          query := COMPS_QUERY_CATEGORY, current_query := "apps", groups := [] }).1 = false ∧
      (pk_backend_get_groups_from_category "C" "apps" failingParseContext).1 =
        StrvPointer.ptr_array [some "editors", some "games"] ∧
      (pk_backend_comps_parser_call "C"
        { g_new0_PkCompsData with
          comps := [catalogFile usualCatalog],
          query := COMPS_QUERY_CATEGORY, current_query := "apps", groups := [] }).1 = true ∧
      (pk_backend_get_groups_from_category "C" "apps"
        { g_new0_PkCompsData with comps := [catalogFile usualCatalog] }).1 =
        StrvPointer.ptr_array [some "editors", some "games"] :=
  ⟨by decide, by decide, by decide, by decide⟩

theorem validSack_invalidate_all (filter_key : String) (sack_cache : List HifSackCacheItem) :
    validSack filter_key (invalidate_all sack_cache) = none := by
  induction sack_cache with
  | nil => rfl
  | cons item rest ih =>
    by_cases h : item.key = filter_key
    · simp [validSack, sack_cache_lookup, invalidate_all, h]
    · simpa [validSack, sack_cache_lookup, invalidate_all, h] using ih

/-! ## Lemmas on the callbacks in CategoryLookup mode -/

theorem startC (loc n : String) (av : List String) (cd : PkCompsData)
    (hq : cd.query = COMPS_QUERY_CATEGORY) (s : PkCompsState) (m : Bool)
    (gs : List (Option String)) :
    pk_comps_start_element loc n av (cd.movedTo s m gs) =
      cd.movedTo (categoryStart n s) m gs := by
  rw [start_closed]
  simp [PkCompsData.movedTo, hq, startState]

theorem textC_calm (t : String) (cd : PkCompsData) (s : PkCompsState) (m : Bool)
    (gs : List (Option String)) (hs : CalmC m s) :
    pk_comps_element_text t (cd.movedTo s m gs) = cd.movedTo s m gs := by
  rcases hs with h | ⟨h, hm⟩ <;> subst h
  · cases m <;> simp [text_closed, textMatch, PkCompsData.movedTo]
  · subst hm; simp [text_closed, textMatch, PkCompsData.movedTo]

theorem textC_groupid (t : String) (cd : PkCompsData) (gs : List (Option String)) :
    pk_comps_element_text t (cd.movedTo COMPS_STATE_CATEGORY_GROUPID true gs) =
      cd.movedTo COMPS_STATE_CATEGORY_GROUPID true (gs ++ [some t]) := by
  simp [text_closed, textMatch, PkCompsData.movedTo]

theorem textC_category (t : String) (cd : PkCompsData) (gs : List (Option String)) :
    pk_comps_element_text t (cd.movedTo COMPS_STATE_CATEGORY false gs) =
      cd.movedTo COMPS_STATE_CATEGORY false gs := by
  simp [text_closed, textMatch, PkCompsData.movedTo]

theorem textC_category_id (t : String) (cd : PkCompsData) (m : Bool)
    (gs : List (Option String)) :
    pk_comps_element_text t (cd.movedTo COMPS_STATE_CATEGORY_ID m gs) =
      cd.movedTo COMPS_STATE_CATEGORY_ID (m || decide (cd.current_query = t)) gs := by
  by_cases h : cd.current_query = t <;> cases m <;>
    simp [text_closed, textMatch, PkCompsData.movedTo, h]

theorem stopC (n : String) (cd : PkCompsData) (s : PkCompsState) (m : Bool)
    (gs : List (Option String)) :
    pk_comps_end_element n (cd.movedTo s m gs) =
      cd.movedTo
        (if m = true ∧ (n = "groupid" ∨ n = "packagereq" ∨ n = "description")
          then COMPS_STATE_IGNORE else s)
        (m && decide (n ≠ "category") && decide (n ≠ "group")) gs := by
  rw [stop_closed]
  simp [PkCompsData.movedTo]

theorem categoryStart_calm (n : String) (s : PkCompsState) (m : Bool)
    (hc : n ≠ "category") (hp : n ≠ "groupid" ∨ m = false) (hs : CalmC m s) :
    CalmC m (categoryStart n s) := by
  unfold categoryStart
  have hne : s ≠ COMPS_STATE_CATEGORY := by
    rcases hs with h | ⟨h, _⟩ <;> simp [h]
  rw [if_neg hc]
  split_ifs <;> simp_all [CalmC]

theorem stopC_calm (n : String) (cd : PkCompsData) (s : PkCompsState) (m : Bool)
    (gs : List (Option String)) (hg : n ≠ "group") (hc : n ≠ "category") (hs : CalmC m s) :
    ∃ s', CalmC m s' ∧ pk_comps_end_element n (cd.movedTo s m gs) = cd.movedTo s' m gs := by
  rw [stopC]
  refine ⟨if m = true ∧ (n = "groupid" ∨ n = "packagereq" ∨ n = "description")
    then COMPS_STATE_IGNORE else s, ?_, ?_⟩
  · split_ifs
    · exact Or.inl rfl
    · exact hs
  · simp [hg, hc]

theorem leafC (loc : String) (cd : PkCompsData) (hq : cd.query = COMPS_QUERY_CATEGORY)
    (l : Leaf) (s : PkCompsState) (m : Bool) (gs : List (Option String))
    (hw : l.wellFormed = true) (hs : CalmC m s) :
    ∃ s', CalmC m s' ∧
      drive loc (cd.movedTo s m gs) l.events =
        cd.movedTo s' m (gs ++ if m = true then l.groupid.map some else []) := by
  obtain ⟨n, a, t⟩ := l
  simp only [Leaf.wellFormed, Bool.and_eq_true, decide_eq_true_eq] at hw
  obtain ⟨hg, hc⟩ := hw
  simp only [Leaf.events, drive_cons, comps_parser_table, startC loc n _ cd hq]
  by_cases hp : n = "groupid" ∧ m = true
  · obtain ⟨hn, hm⟩ := hp
    subst hn; subst hm
    refine ⟨COMPS_STATE_IGNORE, Or.inl rfl, ?_⟩
    cases t with
    | none => simp [categoryStart, drive, comps_parser_table, stopC, Leaf.groupid]
    | some t =>
      simp [categoryStart, drive, comps_parser_table, stopC, Leaf.groupid, textC_groupid]
  · have hp' : n ≠ "groupid" ∨ m = false := by
      by_cases hn : n = "groupid"
      · right; cases m <;> simp_all
      · left; exact hn
    have h1 := categoryStart_calm n s m hc hp' hs
    have hnil : (if m = true then (Leaf.groupid ⟨n, a, t⟩).map some else []) = [] := by
      rcases hp' with h | h
      · simp [Leaf.groupid, h]
      · simp [h]
    rw [hnil, List.append_nil]
    obtain ⟨s', hs', he⟩ := stopC_calm n cd (categoryStart n s) m gs hg hc h1
    refine ⟨s', hs', ?_⟩
    cases t with
    | none => simpa [drive, comps_parser_table] using he
    | some t => simpa [drive, comps_parser_table, textC_calm _ _ _ _ _ h1] using he

theorem entriesC (loc : String) (cd : PkCompsData) (hq : cd.query = COMPS_QUERY_CATEGORY)
    (m : Bool) (es : List Entry) :
    ∀ (s : PkCompsState) (gs : List (Option String)),
      es.all Entry.wellFormed = true → CalmC m s →
      ∃ s', CalmC m s' ∧
        drive loc (cd.movedTo s m gs) (entriesEvents es) =
          cd.movedTo s' m (gs ++ if m = true then (entriesGroupids es).map some else []) := by
  induction es with
  | nil =>
    intro s gs _ hs
    exact ⟨s, hs, by simp [entriesEvents, entriesGroupids, drive_nil]⟩
  | cons e es ih =>
    intro s gs hw hs
    simp only [List.all_cons, Bool.and_eq_true] at hw
    obtain ⟨hwe, hwes⟩ := hw
    cases e with
    | blank t =>
      obtain ⟨s', hs', h⟩ := ih s gs hwes hs
      refine ⟨s', hs', ?_⟩
      simp only [entriesEvents, Entry.events, List.singleton_append, drive_cons,
        comps_parser_table, textC_calm t cd s m gs hs, entriesGroupids]
      exact h
    | leaf l =>
      obtain ⟨s1, hs1, h1⟩ := leafC loc cd hq l s m gs hwe hs
      obtain ⟨s', hs', h⟩ := ih s1 (gs ++ if m = true then l.groupid.map some else []) hwes hs1
      refine ⟨s', hs', ?_⟩
      simp only [entriesEvents, Entry.events, drive_append, h1, h, entriesGroupids]
      cases m <;> simp

theorem fieldC (loc : String) (cd : PkCompsData) (hq : cd.query = COMPS_QUERY_CATEGORY)
    (m : Bool) (f : Field) (s : PkCompsState) (gs : List (Option String))
    (hw : f.wellFormed = true) (ht : f.groupidIsText = true ∨ m = false) (hs : CalmC m s) :
    ∃ s', CalmC m s' ∧
      drive loc (cd.movedTo s m gs) f.events =
        cd.movedTo s' m (gs ++ if m = true then (fieldsGroupids [f]).map some else []) := by
  cases f with
  | blank t =>
    refine ⟨s, hs, ?_⟩
    simp [Field.events, drive_cons, drive_nil, comps_parser_table, textC_calm t cd s m gs hs,
      fieldsGroupids]
  | leaf l =>
    obtain ⟨s1, hs1, h1⟩ := leafC loc cd hq l s m gs hw hs
    exact ⟨s1, hs1, by simpa [Field.events, fieldsGroupids] using h1⟩
  | list n a es =>
    simp only [Field.wellFormed, Bool.and_eq_true, decide_eq_true_eq] at hw
    simp only [Field.groupidIsText, decide_eq_true_eq] at ht
    obtain ⟨⟨⟨hg, hc⟩, _⟩, hes⟩ := hw
    have h0 := categoryStart_calm n s m hc ht hs
    obtain ⟨s1, hs1, h1⟩ := entriesC loc cd hq m es _ gs hes h0
    obtain ⟨s', hs', h⟩ := stopC_calm n cd s1 m
      (gs ++ if m = true then (entriesGroupids es).map some else []) hg hc hs1
    refine ⟨s', hs', ?_⟩
    simp only [Field.events, drive_cons, comps_parser_table, startC loc n _ cd hq,
      drive_append, h1, drive_nil, h, fieldsGroupids, List.append_nil]

theorem fieldsGroupids_cons (f : Field) (fs : List Field) :
    fieldsGroupids (f :: fs) = fieldsGroupids [f] ++ fieldsGroupids fs := by
  cases f <;> simp [fieldsGroupids]

theorem fieldsC (loc : String) (cd : PkCompsData) (hq : cd.query = COMPS_QUERY_CATEGORY)
    (m : Bool) (fs : List Field) :
    ∀ (s : PkCompsState) (gs : List (Option String)),
      fs.all Field.wellFormed = true → (fs.all Field.groupidIsText = true ∨ m = false) →
      CalmC m s →
      ∃ s', CalmC m s' ∧
        drive loc (cd.movedTo s m gs) (fieldsEvents fs) =
          cd.movedTo s' m (gs ++ if m = true then (fieldsGroupids fs).map some else []) := by
  induction fs with
  | nil =>
    intro s gs _ _ hs
    exact ⟨s, hs, by simp [fieldsEvents, fieldsGroupids, drive_nil]⟩
  | cons f fs ih =>
    intro s gs hw ht hs
    simp only [List.all_cons, Bool.and_eq_true] at hw ht
    obtain ⟨s1, hs1, h1⟩ := fieldC loc cd hq m f s gs hw.1 (ht.imp And.left id) hs
    obtain ⟨s', hs', h⟩ :=
      ih s1 (gs ++ if m = true then (fieldsGroupids [f]).map some else []) hw.2
        (ht.imp And.right id) hs1
    refine ⟨s', hs', ?_⟩
    simp only [fieldsEvents, drive_append, h1, h]
    rw [fieldsGroupids_cons f fs]
    cases m <;> simp

theorem skipBlank_category (loc : String) (cd : PkCompsData) (gs : List (Option String))
    (fs : List Field) :
    drive loc (cd.movedTo COMPS_STATE_CATEGORY false gs) (fieldsEvents fs) =
      drive loc (cd.movedTo COMPS_STATE_CATEGORY false gs) (fieldsEvents (skipBlank fs)) := by
  induction fs with
  | nil => rfl
  | cons f fs ih =>
    cases f with
    | blank t =>
      simp only [fieldsEvents, Field.events, List.singleton_append, drive_cons,
        comps_parser_table, textC_category, skipBlank]
      exact ih
    | leaf l => rfl
    | list n a es => rfl

theorem skipBlank_category_id (loc : String) (cd : PkCompsData) (m : Bool)
    (gs : List (Option String)) (hb : isBlank cd.current_query = false) (fs : List Field)
    (hw : fs.all Field.wellFormed = true) :
    drive loc (cd.movedTo COMPS_STATE_CATEGORY_ID m gs) (fieldsEvents fs) =
      drive loc (cd.movedTo COMPS_STATE_CATEGORY_ID m gs) (fieldsEvents (skipBlank fs)) := by
  induction fs with
  | nil => rfl
  | cons f fs ih =>
    simp only [List.all_cons, Bool.and_eq_true] at hw
    cases f with
    | blank t =>
      have hne : ¬ cd.current_query = t := ne_of_blank t _ (by simpa [Field.wellFormed] using hw.1) hb
      simp only [fieldsEvents, Field.events, List.singleton_append, drive_cons,
        comps_parser_table, textC_category_id, skipBlank, hne, decide_False, Bool.or_false]
      exact ih hw.2
    | leaf l => rfl
    | list n a es => rfl

theorem skipBlank_groupids (fs : List Field) :
    fieldsGroupids (skipBlank fs) = fieldsGroupids fs := by
  induction fs with
  | nil => rfl
  | cons f fs ih => cases f <;> simp [skipBlank, fieldsGroupids, ih]

theorem skipBlank_groupidIsText (fs : List Field) (hw : fs.all Field.groupidIsText = true) :
    (skipBlank fs).all Field.groupidIsText = true := by
  induction fs with
  | nil => rfl
  | cons f fs ih =>
    cases f with
    | blank t =>
      simp only [List.all_cons, Bool.and_eq_true] at hw
      simpa [skipBlank] using ih hw.2
    | leaf l => simpa [skipBlank] using hw
    | list n a es => simpa [skipBlank] using hw

theorem categoryStart_enumerated (n : String) (s : PkCompsState)
    (hn : n ∈ categoryEnumeratedFields) :
    categoryStart n s = categoryStart n COMPS_STATE_IGNORE := by
  simp only [categoryEnumeratedFields, List.mem_cons, List.mem_singleton, List.not_mem_nil,
    or_false] at hn
  rcases hn with h | h | h | h | h <;> subst h <;> simp [categoryStart]

theorem enumerated_firstC (loc : String) (cd : PkCompsData)
    (hq : cd.query = COMPS_QUERY_CATEGORY) (m : Bool) (gs : List (Option String)) (f : Field)
    (fs : List Field) (n : String) (hf : f.elementName = some n)
    (hn : n ∈ categoryEnumeratedFields) (s : PkCompsState) :
    drive loc (cd.movedTo s m gs) (fieldsEvents (f :: fs)) =
      drive loc (cd.movedTo COMPS_STATE_IGNORE m gs) (fieldsEvents (f :: fs)) := by
  cases f with
  | blank t => simp [Field.elementName] at hf
  | leaf l =>
    simp only [Field.elementName, Option.some.injEq] at hf
    subst hf
    simp only [fieldsEvents, Field.events, Leaf.events, List.cons_append, drive_cons,
      comps_parser_table, startC loc _ _ cd hq]
    rw [categoryStart_enumerated _ s hn]
  | list n' a es =>
    simp only [Field.elementName, Option.some.injEq] at hf
    subst hf
    simp only [fieldsEvents, Field.events, List.cons_append, drive_cons,
      comps_parser_table, startC loc _ _ cd hq]
    rw [categoryStart_enumerated _ s hn]

theorem calmC_false (m : Bool) (s : PkCompsState) (h : CalmC m s) : CalmC false s := by
  rcases h with h | ⟨h, _⟩
  · exact Or.inl h
  · exact Or.inr ⟨h, rfl⟩

theorem id_leafC (loc : String) (cd : PkCompsData) (hq : cd.query = COMPS_QUERY_CATEGORY)
    (gs : List (Option String)) (a : List (String × String)) (t : Option String) :
    drive loc (cd.movedTo COMPS_STATE_CATEGORY false gs) (Leaf.events ⟨"id", a, t⟩) =
      cd.movedTo COMPS_STATE_CATEGORY_ID (decide (t = some cd.current_query)) gs := by
  cases t with
  | none =>
    simp [Leaf.events, drive_cons, drive_nil, comps_parser_table, startC loc _ _ cd hq,
      categoryStart, stopC]
  | some t =>
    by_cases h : cd.current_query = t
    · simp [Leaf.events, drive_cons, drive_nil, comps_parser_table, startC loc _ _ cd hq,
        categoryStart, stopC, textC_category_id, h]
    · have h' : ¬ t = cd.current_query := fun e => h e.symm
      simp [Leaf.events, drive_cons, drive_nil, comps_parser_table, startC loc _ _ cd hq,
        categoryStart, stopC, textC_category_id, h, h']

theorem category_fields (loc : String) (cd : PkCompsData) (hq : cd.query = COMPS_QUERY_CATEGORY)
    (hb : isBlank cd.current_query = false) (gs : List (Option String)) (fs : List Field)
    (hw : fs.all Field.wellFormed = true) (hl : categoryLayout fs = true)
    (ht : fs.all Field.groupidIsText = true) :
    ∃ s', CalmC (decide (unitId fs = some cd.current_query)) s' ∧
      drive loc (cd.movedTo COMPS_STATE_CATEGORY false gs) (fieldsEvents fs) =
        cd.movedTo s' (decide (unitId fs = some cd.current_query))
          (gs ++ if unitId fs = some cd.current_query
            then (fieldsGroupids fs).map some else []) := by
  rw [skipBlank_category, ← skipBlank_unitId fs, ← skipBlank_groupids fs]
  have hw1 := skipBlank_wellFormed fs hw
  have ht1 := skipBlank_groupidIsText fs ht
  unfold categoryLayout at hl
  generalize skipBlank fs = ks at hl hw1 ht1
  match ks, hl, hw1, ht1 with
  | .leaf ⟨n, a, t⟩ :: rest, hl, hw1, ht1 =>
    simp only [Bool.and_eq_true, decide_eq_true_eq] at hl
    obtain ⟨hid, hrest⟩ := hl
    subst hid
    simp only [List.all_cons, Bool.and_eq_true] at hw1 ht1
    have hw2 := skipBlank_wellFormed rest hw1.2
    have ht2 := skipBlank_groupidIsText rest ht1.2
    have hu : unitId (Field.leaf ⟨"id", a, t⟩ :: rest) = t := by simp [unitId]
    have hp : fieldsGroupids (Field.leaf ⟨"id", a, t⟩ :: rest) =
        fieldsGroupids (skipBlank rest) := by
      simp [fieldsGroupids, Leaf.groupid, skipBlank_groupids]
    rw [hu, hp]
    have hd : drive loc (cd.movedTo COMPS_STATE_CATEGORY false gs)
        (fieldsEvents (Field.leaf ⟨"id", a, t⟩ :: rest)) =
        drive loc (cd.movedTo COMPS_STATE_CATEGORY_ID (decide (t = some cd.current_query)) gs)
          (fieldsEvents (skipBlank rest)) := by
      rw [← skipBlank_category_id loc cd _ gs hb rest hw1.2]
      simp only [fieldsEvents, Field.events, drive_append, id_leafC loc cd hq]
    rw [hd]
    generalize skipBlank rest = hs at hrest hw2 ht2
    match hs, hrest, hw2, ht2 with
    | f :: rest', hrest, hw2, ht2 =>
      simp only at hrest
      cases hf : f.elementName with
      | none => simp [hf] at hrest
      | some n' =>
        simp only [hf, decide_eq_true_eq] at hrest
        rw [enumerated_firstC loc cd hq _ gs f rest' n' hf hrest]
        obtain ⟨s', hs', h⟩ := fieldsC loc cd hq (decide (t = some cd.current_query))
          (f :: rest') COMPS_STATE_IGNORE gs hw2 (Or.inl ht2) (Or.inl rfl)
        refine ⟨s', hs', ?_⟩
        rw [h]
        by_cases ht : t = some cd.current_query <;> simp [ht]

theorem itemC (loc : String) (cd : PkCompsData) (hq : cd.query = COMPS_QUERY_CATEGORY)
    (hb : isBlank cd.current_query = false) (i : Item) (s : PkCompsState)
    (gs : List (Option String)) (hw : i.wellFormed = true) (hl : i.categoryIdFirst = true)
    (hs : CalmC false s) :
    ∃ s', CalmC false s' ∧
      drive loc (cd.movedTo s false gs) i.events =
        cd.movedTo s' false (gs ++ (categoryGroupids cd.current_query [i]).map some) := by
  cases i with
  | blank t =>
    refine ⟨s, hs, ?_⟩
    simp [Item.events, drive_cons, drive_nil, comps_parser_table, textC_calm t cd s false gs hs,
      categoryGroupids]
  | unit n a fs =>
    simp only [Item.wellFormed] at hw
    by_cases hn : n = "category"
    · subst hn
      simp only [Item.categoryIdFirst, if_true, Bool.and_eq_true] at hl
      obtain ⟨s1, hs1, h1⟩ := category_fields loc cd hq hb gs fs hw hl.1 hl.2
      refine ⟨s1, calmC_false _ _ hs1, ?_⟩
      simp only [Item.events, drive_cons, comps_parser_table, startC loc _ _ cd hq,
        drive_append, drive_nil, categoryGroupids, List.append_nil]
      have hg : categoryStart "category" s = COMPS_STATE_CATEGORY := by
        simp [categoryStart]
      rw [hg, h1, stopC]
      by_cases hu : unitId fs = some cd.current_query <;> simp [hu]
    · have h0 := categoryStart_calm n s false hn (Or.inr rfl) hs
      obtain ⟨s1, hs1, h1⟩ := fieldsC loc cd hq false fs _ gs hw (Or.inr rfl) h0
      refine ⟨s1, hs1, ?_⟩
      simp only [Item.events, drive_cons, comps_parser_table, startC loc _ _ cd hq,
        drive_append, drive_nil, categoryGroupids, h1, stopC]
      simp [hn]

theorem categoryGroupids_cons (target : String) (i : Item) (is : List Item) :
    categoryGroupids target (i :: is) =
      categoryGroupids target [i] ++ categoryGroupids target is := by
  cases i with
  | blank t => simp [categoryGroupids]
  | unit n a fs =>
    by_cases h : n = "category" ∧ unitId fs = some target <;> simp [categoryGroupids, h]

theorem itemsC (loc : String) (cd : PkCompsData) (hq : cd.query = COMPS_QUERY_CATEGORY)
    (hb : isBlank cd.current_query = false) (is : List Item) :
    ∀ (s : PkCompsState) (gs : List (Option String)),
      is.all Item.wellFormed = true → is.all Item.categoryIdFirst = true → CalmC false s →
      ∃ s', CalmC false s' ∧
        drive loc (cd.movedTo s false gs) (itemsEvents is) =
          cd.movedTo s' false (gs ++ (categoryGroupids cd.current_query is).map some) := by
  induction is with
  | nil =>
    intro s gs _ _ hs
    exact ⟨s, hs, by simp [itemsEvents, categoryGroupids, drive_nil]⟩
  | cons i is ih =>
    intro s gs hw hl hs
    simp only [List.all_cons, Bool.and_eq_true] at hw hl
    obtain ⟨s1, hs1, h1⟩ := itemC loc cd hq hb i s gs hw.1 hl.1 hs
    obtain ⟨s', hs', h⟩ :=
      ih s1 (gs ++ (categoryGroupids cd.current_query [i]).map some) hw.2 hl.2 hs1
    refine ⟨s', hs', ?_⟩
    simp only [itemsEvents, drive_append, h1, h]
    rw [categoryGroupids_cons cd.current_query i is]
    simp

theorem catalogC (loc : String) (cd : PkCompsData) (hq : cd.query = COMPS_QUERY_CATEGORY)
    (hb : isBlank cd.current_query = false) (c : Catalog) (s : PkCompsState)
    (gs : List (Option String)) (hw : c.wellFormed = true) (hl : c.categoryIdFirst = true)
    (hs : CalmC false s) :
    ∃ s', CalmC false s' ∧
      drive loc (cd.movedTo s false gs) c.events =
        cd.movedTo s' false (gs ++ (categoryGroupids cd.current_query c.items).map some) := by
  have h0 : categoryStart "comps" s = s := by simp [categoryStart]
  obtain ⟨s', hs', h⟩ := itemsC loc cd hq hb c.items s gs hw hl hs
  refine ⟨s', hs', ?_⟩
  simp only [Catalog.events, drive_cons, comps_parser_table, startC loc _ _ cd hq,
    drive_append, drive_nil, List.map_nil, h0, h, stopC]
  simp

theorem loopC (loc : String) (cd : PkCompsData) (hq : cd.query = COMPS_QUERY_CATEGORY)
    (hb : isBlank cd.current_query = false) (cs : List Catalog) :
    ∀ (s : PkCompsState) (gs : List (Option String)),
      cs.all Catalog.wellFormed = true → cs.all Catalog.categoryIdFirst = true →
      CalmC false s →
      ∃ s', CalmC false s' ∧
        pk_backend_comps_parser_loop loc (cs.map catalogFile) (cd.movedTo s false gs) =
          (true, cd.movedTo s' false (gs ++ (catalogsGroupids cd.current_query cs).map some)) := by
  induction cs with
  | nil =>
    intro s gs _ _ hs
    exact ⟨s, hs, by simp [pk_backend_comps_parser_loop, catalogsGroupids]⟩
  | cons c cs ih =>
    intro s gs hw hl hs
    simp only [List.all_cons, Bool.and_eq_true] at hw hl
    obtain ⟨s1, hs1, h1⟩ := catalogC loc cd hq hb c s gs hw.1 hl.1 hs
    obtain ⟨s', hs', h⟩ :=
      ih s1 (gs ++ (categoryGroupids cd.current_query c.items).map some) hw.2 hl.2 hs1
    refine ⟨s', hs', ?_⟩
    simp only [List.map_cons, catalogFile, pk_backend_comps_parser_loop, h1, if_true]
    rw [h]
    simp [catalogsGroupids]

theorem parser_callC (loc : String) (cd : PkCompsData) (cs : List Catalog)
    (hq : cd.query = COMPS_QUERY_CATEGORY) (hm : cd.query_match = false)
    (hc : cd.comps = cs.map catalogFile) (hb : isBlank cd.current_query = false)
    (hw : cs.all Catalog.wellFormed = true) (hl : cs.all Catalog.categoryIdFirst = true) :
    ∃ s', pk_backend_comps_parser_call loc cd =
      (true, cd.movedTo s' false
        (cd.groups ++ (catalogsGroupids cd.current_query cs).map some)) := by
  obtain ⟨s', _, h⟩ := loopC loc cd hq hb cs COMPS_STATE_IGNORE cd.groups hw hl
    (Or.inl rfl)
  refine ⟨s', ?_⟩
  rw [← h, pk_backend_comps_parser_call, hc]
  congr 1
  cases cd
  simp_all [PkCompsData.movedTo]

/-! ## Lemmas on one parse invocation over a list of files -/

theorem collectedFrom_eq_loop (loc : String) (cd : PkCompsData) (files : List CompsFile) :
    collectedFrom loc cd files =
      ((pk_backend_comps_parser_loop loc files
          { cd with category_state := COMPS_STATE_IGNORE, groups := [], packages := [] }).2.groups,
        (pk_backend_comps_parser_loop loc files
          { cd with category_state := COMPS_STATE_IGNORE, groups := [], packages := [] }).2.packages) := by
  have h : ({ cd with
        comps := files, groups := [], packages := [], category_state := COMPS_STATE_IGNORE } :
      PkCompsData) =
      PkCompsData.reframe
        { cd with category_state := COMPS_STATE_IGNORE, groups := [], packages := [] }
        files [] [] := by
    simp [PkCompsData.reframe]
  show ((pk_backend_comps_parser_loop loc files
      { cd with
        comps := files, groups := [], packages := [], category_state := COMPS_STATE_IGNORE }).2.groups,
    (pk_backend_comps_parser_loop loc files
      { cd with
        comps := files, groups := [], packages := [], category_state := COMPS_STATE_IGNORE }).2.packages) = _
  rw [h, loop_reframe]
  simp [PkCompsData.reframe]

theorem collectedFrom_group (loc : String) (cd : PkCompsData) (cs : List Catalog)
    (hq : cd.query = COMPS_QUERY_GROUP) (hm : cd.query_match = false)
    (hb : isBlank cd.current_query = false) (hw : cs.all Catalog.wellFormed = true)
    (hl : cs.all Catalog.idFirst = true) :
    collectedFrom loc cd (cs.map catalogFile) =
      ([], (catalogsPackages cd.current_query cs).map some) := by
  obtain ⟨s', h⟩ := parser_call_catalogs loc
    { cd with comps := cs.map catalogFile, groups := [], packages := [] } cs hq hm rfl hb hw hl
  rw [collectedFrom]
  simp only [h]
  simp [PkCompsData.moved]

theorem collectedFrom_category (loc : String) (cd : PkCompsData) (cs : List Catalog)
    (hq : cd.query = COMPS_QUERY_CATEGORY) (hm : cd.query_match = false)
    (hb : isBlank cd.current_query = false) (hw : cs.all Catalog.wellFormed = true)
    (hl : cs.all Catalog.categoryIdFirst = true) :
    collectedFrom loc cd (cs.map catalogFile) =
      ((catalogsGroupids cd.current_query cs).map some, []) := by
  obtain ⟨s', h⟩ := parser_callC loc
    { cd with comps := cs.map catalogFile, groups := [], packages := [] } cs hq hm rfl hb hw hl
  rw [collectedFrom]
  simp only [h]
  simp [PkCompsData.movedTo]

theorem collectedFrom_catalogs (loc : String) (cd : PkCompsData) (cs : List Catalog)
    (hm : cd.query_match = false) (hb : isBlank cd.current_query = false)
    (hw : cs.all Catalog.wellFormed = true)
    (hl : cs.all (Catalog.layoutFor cd.query) = true) :
    collectedFrom loc cd (cs.map catalogFile) =
      ((cs.map (fun c => (catalogNames cd.query cd.current_query c).1)).flatten,
        (cs.map (fun c => (catalogNames cd.query cd.current_query c).2)).flatten) := by
  cases hq : cd.query with
  | COMPS_QUERY_CATEGORY =>
    rw [hq] at hl
    rw [collectedFrom_category loc cd cs hq hm hb hw (by simpa [Catalog.layoutFor] using hl)]
    clear hw hl
    induction cs with
    | nil => rfl
    | cons c cs ih =>
      simp only [catalogsGroupids, List.map_append, List.map_cons, List.flatten_cons,
        catalogNames, Prod.mk.injEq] at ih ⊢
      exact ⟨by rw [ih.1], by simp⟩
  | COMPS_QUERY_GROUP =>
    rw [hq] at hl
    rw [collectedFrom_group loc cd cs hq hm hb hw (by simpa [Catalog.layoutFor] using hl)]
    clear hw hl
    induction cs with
    | nil => rfl
    | cons c cs ih =>
      simp only [catalogsPackages, List.map_append, List.map_cons, List.flatten_cons,
        catalogNames, Prod.mk.injEq] at ih ⊢
      exact ⟨by simp, by rw [ih.2]⟩

theorem loop_accepts (loc : String) (files : List CompsFile)
    (hok : files.all (fun f => !f.fails) = true) :
    ∀ cd : PkCompsData, (pk_backend_comps_parser_loop loc files cd).1 = true := by
  induction files with
  | nil => intro cd; rfl
  | cons f fs ih =>
    intro cd
    simp only [List.all_cons, Bool.and_eq_true] at hok
    cases f with
    | unreadable => simp [CompsFile.fails] at hok
    | markup evs ok =>
      cases ok with
      | false => simp [CompsFile.fails] at hok
      | true => simpa [pk_backend_comps_parser_loop] using ih hok.2 (drive loc cd evs)

theorem get_packages_single_catalogs (loc : String) (cs : List Catalog) (id : String)
    (cd : PkCompsData) (hw : cs.all Catalog.wellFormed = true)
    (hl : cs.all Catalog.idFirst = true) (hm : cd.query_match = false)
    (hc : cd.comps = cs.map catalogFile) (hb : isBlank id = false) :
    (pk_backend_get_packages_from_group loc (pk_ptr_array_to_strv [some id]) cd).2.query_match =
        false ∧
      strvItems (pk_backend_get_packages_from_group loc (pk_ptr_array_to_strv [some id]) cd).1 =
        catalogsPackages id cs := by
  constructor
  · rw [(get_packages_single loc id cd hm).2, hc]
    obtain ⟨s', h⟩ := parser_call_catalogs loc (probe (cs.map catalogFile) id) cs rfl rfl rfl
      hb hw hl
    rw [h]
    rfl
  · have h := get_packages_catalogs loc cs [id] cd hw hl hm hc (by simpa using hb)
    simpa using h

/-! ## The claims -/

set_option maxRecDepth 8192 in
/-- C1, as stated, fails: `nameFirstCatalog` is well formed and `editors` is the
id of exactly one of its groups, whose only `packagereq` is `vim`, yet the
callbacks driven from the parse-start context in GroupLookup mode collect
nothing, because `id` is honoured only in state `COMPS_STATE_GROUP` and the
`name` element before it has already moved the state to
`COMPS_STATE_IGNORE`. -/
theorem C1_name_before_id_counterexample :
    nameFirstCatalog.wellFormed = true ∧
      groupsWithId "editors" nameFirstCatalog.items = [nameFirstGroup] ∧
      fieldsPackagereqs nameFirstGroup = ["vim"] ∧
      (drive "C" (groupLookupStart "editors") nameFirstCatalog.events).packages = [] :=
  ⟨by decide, by decide, by decide, by decide⟩

/-- C1, amended: for every well-formed catalog whose groups each open with their
`id` element followed by one of the enumerated fields, and every non-blank
target id that is the id of exactly one group in it, driving the callbacks in
GroupLookup mode from the parse-start context leaves the package collection
equal to the text values of the `packagereq` elements under that group, in
document order, duplicates kept, nothing taken from other groups or from text
between elements. -/
theorem C1_group_lookup_collects_packagereqs (loc target : String) (c : Catalog)
    (fields : List Field) (hw : c.wellFormed = true) (hl : c.idFirst = true)
    (hb : isBlank target = false) (hone : groupsWithId target c.items = [fields]) :
    (drive loc (groupLookupStart target) c.events).packages =
      (fieldsPackagereqs fields).map some := by
  obtain ⟨s', _, h⟩ := catalog_calm loc (groupLookupStart target) rfl hb c
    COMPS_STATE_IGNORE [] hw hl (Or.inl rfl)
  have h0 : (groupLookupStart target).moved COMPS_STATE_IGNORE false [] =
      groupLookupStart target := rfl
  rw [h0] at h
  rw [h]
  simp [PkCompsData.moved, groupLookupStart, groupPackages_eq_foldr, hone]

/-- Witness for C1: the group `editors` of `usualCatalog`, with a repeated
`packagereq`. -/
theorem C1_group_lookup_collects_packagereqs_witness :
    usualCatalog.wellFormed = true ∧ usualCatalog.idFirst = true ∧
      isBlank "editors" = false ∧
      groupsWithId "editors" usualCatalog.items = [usualGroup] ∧
      (drive "de" (groupLookupStart "editors") usualCatalog.events).packages =
        [some "vim", some "emacs", some "vim"] :=
  ⟨by decide, by decide, by decide, by decide,
    C1_group_lookup_collects_packagereqs "de" "editors" usualCatalog usualGroup
      (by decide) (by decide) (by decide) (by decide)⟩

set_option maxRecDepth 8192 in
/-- C2, as stated, fails: `langonlyCatalog` is well formed and has no group with
id `ja`, yet resolving `ja` in GroupLookup mode returns `ibus-anthy`: the state
stays `COMPS_STATE_GROUP_ID` after the `id` element has closed, so the text of
the `langonly` element that follows is compared with the target too. -/
theorem C2_text_after_id_counterexample :
    langonlyCatalog.wellFormed = true ∧ langonlyCatalog.hasGroup "ja" = false ∧
      strvItems
        (pk_backend_get_packages_from_group "C" (pk_ptr_array_to_strv [some "ja"])
          { g_new0_PkCompsData with comps := [catalogFile langonlyCatalog] }).1 =
        ["ibus-anthy"] :=
  ⟨by decide, by decide, by decide⟩

/-- C2, amended: for every list of well-formed catalogs whose groups each open
with their `id` element followed by one of the enumerated fields, and every
non-blank target id that is the id of no group in them, resolving that id in
GroupLookup mode (from a context whose match flag is inactive) returns a string
vector with no package name; the function has no error result. -/
theorem C2_absent_group_resolves_to_nothing (loc target : String) (cs : List Catalog)
    (cd : PkCompsData) (hw : cs.all Catalog.wellFormed = true)
    (hl : cs.all Catalog.idFirst = true) (hb : isBlank target = false)
    (ha : cs.all (fun c => !c.hasGroup target) = true) (hm : cd.query_match = false)
    (hc : cd.comps = cs.map catalogFile) :
    strvItems
        (pk_backend_get_packages_from_group loc (pk_ptr_array_to_strv [some target]) cd).1 =
      [] := by
  have h := get_packages_catalogs loc cs [target] cd hw hl hm hc
    (fun id hid => by simp only [List.mem_singleton] at hid; rw [hid]; exact hb)
  simp only [List.map_cons, List.map_nil] at h
  rw [h]
  simp [catalogsPackages_absent target cs ha]

/-- Witness for C2: `nonexistent-group` looked up in `usualCatalog`. -/
theorem C2_absent_group_resolves_to_nothing_witness :
    [usualCatalog].all Catalog.wellFormed = true ∧
      [usualCatalog].all Catalog.idFirst = true ∧
      isBlank "nonexistent-group" = false ∧
      [usualCatalog].all (fun c => !c.hasGroup "nonexistent-group") = true ∧
      strvItems
        (pk_backend_get_packages_from_group "C"
          (pk_ptr_array_to_strv [some "nonexistent-group"])
          { g_new0_PkCompsData with comps := [usualCatalog].map catalogFile }).1 = [] :=
  ⟨by decide, by decide, by decide, by decide,
    C2_absent_group_resolves_to_nothing "C" "nonexistent-group" [usualCatalog]
      { g_new0_PkCompsData with comps := [usualCatalog].map catalogFile }
      (by decide) (by decide) (by decide) (by decide) rfl rfl⟩

/-- C3: `pk_backend_group_mapping` implements the alias table row by row.  The
three GroupLookup aliases return their group ids, in table order, and leave the
parse context untouched (no category step); the seven CategoryLookup aliases
run the category lookup on their canonical category id. -/
theorem C3_alias_table (loc : String) (cd : PkCompsData) :
    pk_backend_group_mapping loc "internet" cd =
        some (pk_ptr_array_to_strv [some "graphical-internet", some "text-internet"], cd) ∧
      pk_backend_group_mapping loc "legacy" cd =
        some (pk_ptr_array_to_strv [some "legacy-software-support"], cd) ∧
      pk_backend_group_mapping loc "publishing" cd =
        some (pk_ptr_array_to_strv [some "authoring-and-publishing"], cd) ∧
      pk_backend_group_mapping loc "desktop-kde" cd =
        viaCategory loc "kde-desktop-environment" cd ∧
      pk_backend_group_mapping loc "desktop-gnome" cd =
        viaCategory loc "gnome-desktop-environment" cd ∧
      pk_backend_group_mapping loc "desktop-xfce" cd =
        viaCategory loc "xfce-desktop-environment" cd ∧
      pk_backend_group_mapping loc "desktop-other" cd =
        viaCategory loc "lxde-desktop-environment" cd ∧
      pk_backend_group_mapping loc "programming" cd =
        viaCategory loc "development" cd ∧
      pk_backend_group_mapping loc "servers" cd = viaCategory loc "servers" cd ∧
      pk_backend_group_mapping loc "system" cd = viaCategory loc "base-system" cd := by
  refine ⟨?_, ?_, ?_, ?_, ?_, ?_, ?_, ?_, ?_, ?_⟩
  · simp [pk_backend_group_mapping]
  · simp [pk_backend_group_mapping]
  · simp [pk_backend_group_mapping]
  all_goals
    simp only [pk_backend_group_mapping, viaCategory]
    simp

/-- C4: the alias table of `pk_backend_group_mapping` is total, every input
selects a row.  For every input the function either returns a non-empty list of
group ids without touching the parse context (GroupLookup) or runs the category
lookup on one category id (CategoryLookup); for every input that is not exactly
one of the ten table keys it returns the one-element list holding the input
itself. -/
theorem C4_alias_resolver_total (loc : String) (input : String) (cd : PkCompsData) :
    ((∃ ids : List String, ids ≠ [] ∧
        pk_backend_group_mapping loc input cd =
          some (pk_ptr_array_to_strv (ids.map some), cd)) ∨
      (∃ category : String,
        pk_backend_group_mapping loc input cd = viaCategory loc category cd)) ∧
    (input ∉ aliasKeys →
      pk_backend_group_mapping loc input cd =
        some (pk_ptr_array_to_strv [some input], cd)) := by
  refine ⟨?_, group_mapping_other loc input cd⟩
  by_cases h : input ∈ aliasKeys
  · simp only [aliasKeys, List.mem_cons, List.mem_singleton, List.not_mem_nil, or_false] at h
    rcases h with h | h | h | h | h | h | h | h | h | h <;> subst h
    · exact Or.inl ⟨["graphical-internet", "text-internet"], by simp,
        by simp [pk_backend_group_mapping]⟩
    · exact Or.inl ⟨["legacy-software-support"], by simp, by simp [pk_backend_group_mapping]⟩
    · exact Or.inl ⟨["authoring-and-publishing"], by simp, by simp [pk_backend_group_mapping]⟩
    · exact Or.inr ⟨"kde-desktop-environment", by
        simp only [pk_backend_group_mapping, viaCategory]
        simp⟩
    · exact Or.inr ⟨"gnome-desktop-environment", by
        simp only [pk_backend_group_mapping, viaCategory]
        simp⟩
    · exact Or.inr ⟨"xfce-desktop-environment", by
        simp only [pk_backend_group_mapping, viaCategory]
        simp⟩
    · exact Or.inr ⟨"lxde-desktop-environment", by
        simp only [pk_backend_group_mapping, viaCategory]
        simp⟩
    · exact Or.inr ⟨"development", by
        simp only [pk_backend_group_mapping, viaCategory]
        simp⟩
    · exact Or.inr ⟨"servers", by
        simp only [pk_backend_group_mapping, viaCategory]
        simp⟩
    · exact Or.inr ⟨"base-system", by
        simp only [pk_backend_group_mapping, viaCategory]
        simp⟩
  · exact Or.inl ⟨[input], by simp, by simpa using group_mapping_other loc input cd h⟩

/-- Witness for C4: `Internet` is not a key of the table and is looked up as a
group id of its own. -/
theorem C4_alias_resolver_total_witness :
    "Internet" ∉ aliasKeys ∧
      pk_backend_group_mapping "C" "Internet" g_new0_PkCompsData =
        some (pk_ptr_array_to_strv [some "Internet"], g_new0_PkCompsData) :=
  ⟨by decide,
    (C4_alias_resolver_total "C" "Internet" g_new0_PkCompsData).2 (by decide)⟩

set_option maxRecDepth 16384 in
/-- C5, the code at the failing input: in Scenario A the category lookup for
`desktop-gnome` collects the group ids `gnome-desktop` and `gnome-apps`, and
resolving those two ids gives `gnome-shell` and `nautilus`, as the claim
requires.  But `pk_backend_get_groups_from_category` hands back the pointer
array struct itself, and the copy loop of `pk_backend_group_mapping` faults
reading it as a string vector: the search sends its two opening signals and
ends there, with no package reported and `finished` never sent.  For every
category and every context, the read of the category lookup's result either
faults or yields no group id at all, so no group id of a category ever reaches
GroupLookup. -/
theorem C5_category_groups_read_faults :
    pk_backend_get_groups_from_category "C" "gnome-desktop-environment"
        { g_new0_PkCompsData with
          comps := [catalogFile gnomeCategoryCatalog, catalogFile gnomeGroupCatalog] } =
        (StrvPointer.ptr_array [some "gnome-desktop", some "gnome-apps"],
          scenarioAContext) ∧
      strvItems
        (pk_backend_get_packages_from_group "C"
          (pk_ptr_array_to_strv [some "gnome-desktop", some "gnome-apps"])
          scenarioAContext).1 = ["gnome-shell", "nautilus"] ∧
      pk_backend_group_mapping "C" "desktop-gnome"
        { g_new0_PkCompsData with
          comps := [catalogFile gnomeCategoryCatalog, catalogFile gnomeGroupCatalog] } =
        none ∧
      pk_backend_search_groups scenarioA ["desktop-gnome"] =
        { signals := [JobSignal.set_allow_cancel true, JobSignal.set_status_query]
          faulted := true } ∧
      (∀ (loc category : String) (cd : PkCompsData),
        viaCategory loc category cd = none ∨
          viaCategory loc category cd =
            some (pk_ptr_array_to_strv [],
              (pk_backend_get_groups_from_category loc category cd).2)) := by
  refine ⟨by decide, by decide, by decide, by decide, ?_⟩
  intro loc category cd
  unfold viaCategory
  cases h : (pk_backend_comps_parser_call loc
      { cd with query := COMPS_QUERY_CATEGORY, current_query := category, groups := [] }).2.groups with
  | nil => right; simp [pk_backend_get_groups_from_category, StrvPointer.items, h]
  | cons g gs => left; simp [pk_backend_get_groups_from_category, StrvPointer.items, h]

set_option maxRecDepth 8192 in
/-- C6, as stated, fails, in two ways.  With the single catalog file
`brokenFile`, the ids `editors` and `games` resolved together give `vim` twice,
while `editors` alone gives `vim` once and `games` alone gives nothing: the
parse for `editors` stops with the match flag still set, and the flag is not
cleared before the parse for `games`.  And over `langonlyCatalog`, which is well
formed and loads and parses, the id `ja`, which no group has, contributes
`ibus-anthy`. -/
theorem C6_match_carried_over_counterexample :
    (strvItems
        (pk_backend_get_packages_from_group "C"
          (pk_ptr_array_to_strv [some "editors", some "games"])
          { g_new0_PkCompsData with comps := [brokenFile] }).1 = ["vim", "vim"] ∧
      strvItems
        (pk_backend_get_packages_from_group "C" (pk_ptr_array_to_strv [some "editors"])
          { g_new0_PkCompsData with comps := [brokenFile] }).1 = ["vim"] ∧
      strvItems
        (pk_backend_get_packages_from_group "C" (pk_ptr_array_to_strv [some "games"])
          { g_new0_PkCompsData with comps := [brokenFile] }).1 = []) ∧
    (langonlyCatalog.wellFormed = true ∧ langonlyCatalog.hasGroup "ja" = false ∧
      strvItems
        (pk_backend_get_packages_from_group "C" (pk_ptr_array_to_strv [some "ja"])
          { g_new0_PkCompsData with comps := [catalogFile langonlyCatalog] }).1 =
        ["ibus-anthy"]) :=
  ⟨⟨by decide, by decide, by decide⟩, ⟨by decide, by decide, by decide⟩⟩

/-- C6, amended: for every list of group ids and every list of catalog files,
from a context whose match flag is inactive, two things hold.  First, if each
id resolved alone leaves the match flag inactive, then
`pk_backend_get_packages_from_group` returns the concatenation, in id order, of
what it returns for each id resolved alone against the same files.  Second, if
the files are well-formed catalogs that load and parse and in which every group
opens with its `id` element, followed next by one of the enumerated fields, and
the ids are non-blank, then each id resolved alone does leave the flag inactive
and returns the `packagereq` values under the groups with that id, catalog after
catalog; the whole list returns the concatenation of these in id order; and an
id that is the id of no group contributes nothing.  The result is always a
vector of names, never an error. -/
theorem C6_ids_resolved_independently (loc : String) (ids : List String) (cd : PkCompsData)
    (hm : cd.query_match = false) :
    ((∀ id ∈ ids,
          (pk_backend_get_packages_from_group loc
            (pk_ptr_array_to_strv [some id]) cd).2.query_match = false) →
        strvItems
            (pk_backend_get_packages_from_group loc (pk_ptr_array_to_strv (ids.map some)) cd).1 =
          ids.flatMap (fun id =>
            strvItems
              (pk_backend_get_packages_from_group loc (pk_ptr_array_to_strv [some id]) cd).1)) ∧
      (∀ cs : List Catalog, cd.comps = cs.map catalogFile →
        cs.all Catalog.wellFormed = true → cs.all Catalog.idFirst = true →
        (∀ id ∈ ids, isBlank id = false) →
        (∀ id ∈ ids,
          (pk_backend_get_packages_from_group loc
              (pk_ptr_array_to_strv [some id]) cd).2.query_match = false ∧
            strvItems
                (pk_backend_get_packages_from_group loc (pk_ptr_array_to_strv [some id]) cd).1 =
              catalogsPackages id cs) ∧
          strvItems
              (pk_backend_get_packages_from_group loc
                (pk_ptr_array_to_strv (ids.map some)) cd).1 =
            ids.flatMap (fun id => catalogsPackages id cs) ∧
          (∀ id ∈ ids, cs.all (fun c => !c.hasGroup id) = true →
            strvItems
                (pk_backend_get_packages_from_group loc (pk_ptr_array_to_strv [some id]) cd).1 =
              [])) := by
  constructor
  · intro hquiet
    have hq : ∀ id ∈ ids,
        (pk_backend_comps_parser_call loc (probe cd.comps id)).2.query_match = false := by
      intro id hid
      rw [← (get_packages_single loc id cd hm).2]
      exact hquiet id hid
    have hloop := groupsLoop_general loc cd.comps ids hq
      { cd with query := COMPS_QUERY_GROUP, packages := [] } rfl hm rfl
    rw [get_packages_eq_groupsLoop, hloop]
    simp only [List.nil_append]
    rw [strvItems_flatMap _ ids (fun id => by
      obtain ⟨l, hl⟩ := parser_call_packages_some loc (probe cd.comps id)
      exact ⟨l, by simpa [probe] using hl⟩)]
    congr 1
    funext id
    rw [(get_packages_single loc id cd hm).1]
  · intro cs hc hw hl hb
    refine ⟨fun id hid => get_packages_single_catalogs loc cs id cd hw hl hm hc (hb id hid),
      get_packages_catalogs loc cs ids cd hw hl hm hc hb, ?_⟩
    intro id hid ha
    rw [(get_packages_single_catalogs loc cs id cd hw hl hm hc (hb id hid)).2,
      catalogsPackages_absent id cs ha]

set_option maxRecDepth 8192 in
/-- Witness for C6.  First part: `games`, an id no group has, and `editors`
resolved over `usualCatalog` followed by a file that cannot be loaded.  Second
part: the same ids over `usualCatalog` followed by `editorsCatalog`. -/
theorem C6_ids_resolved_independently_witness :
    ((∀ id ∈ ["games", "no-such-group", "editors"],
        (pk_backend_get_packages_from_group "C" (pk_ptr_array_to_strv [some id])
          { g_new0_PkCompsData with comps := usualThenUnreadable }).2.query_match = false) ∧
      strvItems
        (pk_backend_get_packages_from_group "C"
          (pk_ptr_array_to_strv (["games", "no-such-group", "editors"].map some))
          { g_new0_PkCompsData with comps := usualThenUnreadable }).1 =
      ["games", "no-such-group", "editors"].flatMap (fun id =>
        strvItems
          (pk_backend_get_packages_from_group "C" (pk_ptr_array_to_strv [some id])
            { g_new0_PkCompsData with comps := usualThenUnreadable }).1)) ∧
    ([usualCatalog, editorsCatalog].all Catalog.wellFormed = true ∧
      [usualCatalog, editorsCatalog].all Catalog.idFirst = true ∧
      (∀ id ∈ ["games", "no-such-group", "editors"], isBlank id = false) ∧
      strvItems
        (pk_backend_get_packages_from_group "C"
          (pk_ptr_array_to_strv (["games", "no-such-group", "editors"].map some))
          { g_new0_PkCompsData with
            comps := [usualCatalog, editorsCatalog].map catalogFile }).1 =
        ["games", "no-such-group", "editors"].flatMap
          (fun id => catalogsPackages id [usualCatalog, editorsCatalog]) ∧
      ["games", "no-such-group", "editors"].flatMap
          (fun id => catalogsPackages id [usualCatalog, editorsCatalog]) =
        ["nethack", "vim", "emacs", "vim", "vim"]) :=
  ⟨⟨by decide,
      (C6_ids_resolved_independently "C" ["games", "no-such-group", "editors"]
        { g_new0_PkCompsData with comps := usualThenUnreadable } rfl).1 (by decide)⟩,
    ⟨by decide, by decide, by decide,
      ((C6_ids_resolved_independently "C" ["games", "no-such-group", "editors"]
        { g_new0_PkCompsData with comps := [usualCatalog, editorsCatalog].map catalogFile }
        rfl).2 [usualCatalog, editorsCatalog] rfl (by decide) (by decide) (by decide)).2.1,
      by decide⟩⟩

set_option maxRecDepth 8192 in
/-- C7, as stated, fails in either mode.  In GroupLookup mode,
`environmentCatalog` and `editorsCatalog` are well formed and load and parse,
and for the target `minimal` each of them parsed on its own collects nothing,
yet one parse invocation over both collects the package name `vim`.  In
CategoryLookup mode the same holds of `categoryThenEnvironment` and
`gnomeCategoryCatalog`, which together collect the group ids `gnome-desktop` and
`gnome-apps`.  The state and the match flag are carried from one file into the
next. -/
theorem C7_state_carried_between_files_counterexample :
    (environmentCatalog.wellFormed = true ∧ editorsCatalog.wellFormed = true ∧
      collectedFrom "C" (groupLookupStart "minimal") [catalogFile environmentCatalog] =
        ([], []) ∧
      collectedFrom "C" (groupLookupStart "minimal") [catalogFile editorsCatalog] = ([], []) ∧
      collectedFrom "C" (groupLookupStart "minimal")
        [catalogFile environmentCatalog, catalogFile editorsCatalog] = ([], [some "vim"])) ∧
    (categoryThenEnvironment.wellFormed = true ∧ gnomeCategoryCatalog.wellFormed = true ∧
      collectedFrom "C" (categoryLookupStart "minimal") [catalogFile categoryThenEnvironment] =
        ([], []) ∧
      collectedFrom "C" (categoryLookupStart "minimal") [catalogFile gnomeCategoryCatalog] =
        ([], []) ∧
      collectedFrom "C" (categoryLookupStart "minimal")
        [catalogFile categoryThenEnvironment, catalogFile gnomeCategoryCatalog] =
        ([some "gnome-desktop", some "gnome-apps"], [])) :=
  ⟨⟨by decide, by decide, by decide, by decide, by decide⟩,
    ⟨by decide, by decide, by decide, by decide, by decide⟩⟩

/-- C7, amended: for either query mode, every non-blank target id and every
ordered list of well-formed catalog files in the usual layout of that mode (in
GroupLookup mode every group, in CategoryLookup mode every category opens with
its `id` element, followed next by one of the enumerated fields of the mode, and
a category holds `groupid` only as text elements), the group ids and the package
names collected by one parse invocation, started with the match flag inactive,
equal the concatenation, in the supplied file order, of those collected from
each file parsed on its own; each file gives, in document order, the `groupid`
values under its categories with the target id (CategoryLookup) or the
`packagereq` values under its groups with the target id (GroupLookup), and
nothing in the other collection. -/
theorem C7_files_contribute_in_order (loc : String) (cd : PkCompsData) (cs : List Catalog)
    (hm : cd.query_match = false) (hb : isBlank cd.current_query = false)
    (hw : cs.all Catalog.wellFormed = true)
    (hl : cs.all (Catalog.layoutFor cd.query) = true) :
    collectedFrom loc cd (cs.map catalogFile) =
        ((cs.map (fun c => (collectedFrom loc cd [catalogFile c]).1)).flatten,
          (cs.map (fun c => (collectedFrom loc cd [catalogFile c]).2)).flatten) ∧
      ∀ c ∈ cs, collectedFrom loc cd [catalogFile c] =
        catalogNames cd.query cd.current_query c := by
  have hone : ∀ c ∈ cs, collectedFrom loc cd [catalogFile c] =
      catalogNames cd.query cd.current_query c := by
    intro c hc
    have hwc : [c].all Catalog.wellFormed = true := by
      simpa using (List.all_eq_true.mp hw) c hc
    have hlc : [c].all (Catalog.layoutFor cd.query) = true := by
      simpa using (List.all_eq_true.mp hl) c hc
    have h := collectedFrom_catalogs loc cd [c] hm hb hwc hlc
    simpa using h
  refine ⟨?_, hone⟩
  rw [collectedFrom_catalogs loc cd cs hm hb hw hl]
  have h1 : cs.map (fun c => (collectedFrom loc cd [catalogFile c]).1) =
      cs.map (fun c => (catalogNames cd.query cd.current_query c).1) :=
    List.map_congr_left (fun c hc => by rw [hone c hc])
  have h2 : cs.map (fun c => (collectedFrom loc cd [catalogFile c]).2) =
      cs.map (fun c => (catalogNames cd.query cd.current_query c).2) :=
    List.map_congr_left (fun c hc => by rw [hone c hc])
  rw [h1, h2]

set_option maxRecDepth 8192 in
/-- Witness for C7: the group ids of the category `apps` collected from
`usualCatalog` followed by `gnomeCategoryCatalog` and again `usualCatalog`. -/
theorem C7_files_contribute_in_order_witness :
    isBlank (categoryLookupStart "apps").current_query = false ∧
      [usualCatalog, gnomeCategoryCatalog, usualCatalog].all Catalog.wellFormed = true ∧
      [usualCatalog, gnomeCategoryCatalog, usualCatalog].all
        (Catalog.layoutFor (categoryLookupStart "apps").query) = true ∧
      collectedFrom "C" (categoryLookupStart "apps")
        ([usualCatalog, gnomeCategoryCatalog, usualCatalog].map catalogFile) =
        ([some "editors", some "games", some "editors", some "games"], []) ∧
      collectedFrom "C" (categoryLookupStart "apps")
          ([usualCatalog, gnomeCategoryCatalog, usualCatalog].map catalogFile) =
        (([usualCatalog, gnomeCategoryCatalog, usualCatalog].map
            (fun c => (collectedFrom "C" (categoryLookupStart "apps") [catalogFile c]).1)).flatten,
          ([usualCatalog, gnomeCategoryCatalog, usualCatalog].map
            (fun c => (collectedFrom "C" (categoryLookupStart "apps") [catalogFile c]).2)).flatten) :=
  ⟨by decide, by decide, by decide, by decide,
    (C7_files_contribute_in_order "C" (categoryLookupStart "apps")
      [usualCatalog, gnomeCategoryCatalog, usualCatalog] rfl (by decide) (by decide)
      (by decide)).1⟩

set_option maxRecDepth 8192 in
/-- C8, as stated, fails: with `malformedFile` between `editorsCatalog` and
`usualCatalog`, the target `editors` collects `vim` from the first file only,
although the two other files without the failing one yield four entries: the
walk returns at the failing file and the file after it is never read. -/
theorem C8_files_after_failure_skipped_counterexample :
    malformedFile.fails = true ∧
      collectedFrom "C" (groupLookupStart "editors")
        [catalogFile editorsCatalog, malformedFile, catalogFile usualCatalog] =
        ([], [some "vim"]) ∧
      collectedFrom "C" (groupLookupStart "editors")
        [catalogFile editorsCatalog, catalogFile usualCatalog] =
        ([], [some "vim", some "vim", some "emacs", some "vim"]) :=
  ⟨by decide, by decide, by decide⟩

/-- C8, amended: for either query mode, every target id and every ordered list
of catalog files in which one file fails, that is, the file cannot be loaded or
the markup parse call on it returns an error, the parse invocation reports
failure, and the group ids and package names collected are those that the files
before the failing one yield, followed by what the callbacks delivered for the
failing file before its error collect (nothing when the file cannot be loaded);
no file after the failing one is read.  Only a failing load or parse call ends
the walk: over files none of which fails the invocation reports success, and a
file that only ends before its closing tags does not fail, since the parse call
accepts it. -/
theorem C8_walk_ends_at_failing_file (loc : String) (cd : PkCompsData)
    (pre post : List CompsFile) (bad : CompsFile) (hbad : bad.fails = true) :
    (pk_backend_comps_parser_call loc { cd with comps := pre ++ bad :: post }).1 = false ∧
      collectedFrom loc cd (pre ++ bad :: post) =
        collectedFrom loc cd (pre ++ [CompsFile.markup bad.delivered true]) ∧
      (bad = CompsFile.unreadable →
        collectedFrom loc cd (pre ++ bad :: post) = collectedFrom loc cd pre) ∧
      (∀ files : List CompsFile, files.all (fun f => !f.fails) = true →
        (pk_backend_comps_parser_call loc { cd with comps := files }).1 = true) ∧
      (∀ events : List MarkupEvent, (CompsFile.markup events true).fails = false) := by
  refine ⟨?_, ?_, ?_, ?_, fun _ => rfl⟩
  · show (pk_backend_comps_parser_loop loc (pre ++ bad :: post) _).1 = false
    rw [loop_fails loc bad post hbad pre]
  · rw [collectedFrom_eq_loop, collectedFrom_eq_loop, loop_fails loc bad post hbad pre]
  · intro hu
    subst hu
    rw [collectedFrom_eq_loop, collectedFrom_eq_loop,
      loop_fails loc CompsFile.unreadable post hbad pre]
    show ((pk_backend_comps_parser_loop loc (pre ++ [CompsFile.markup [] true]) _).2.groups,
      (pk_backend_comps_parser_loop loc (pre ++ [CompsFile.markup [] true]) _).2.packages) = _
    rw [loop_append_empty]
  · intro files hok
    exact loop_accepts loc files hok _

set_option maxRecDepth 8192 in
/-- Witness for C8: `brokenFile` between `usualCatalog` and `editorsCatalog`,
target `editors`; the failing file still contributes the `vim` delivered before
its error, and the file after it contributes nothing.  With `cutShortFile` in
its place, which delivers the same callbacks but is accepted by the parse call,
the walk goes on and the last file contributes its `vim`. -/
theorem C8_walk_ends_at_failing_file_witness :
    brokenFile.fails = true ∧
      collectedFrom "C" (groupLookupStart "editors")
        ([catalogFile usualCatalog] ++ brokenFile :: [catalogFile editorsCatalog]) =
        ([], [some "vim", some "emacs", some "vim", some "vim"]) ∧
      collectedFrom "C" (groupLookupStart "editors")
        ([catalogFile usualCatalog] ++ brokenFile :: [catalogFile editorsCatalog]) =
        collectedFrom "C" (groupLookupStart "editors")
          ([catalogFile usualCatalog] ++ [CompsFile.markup brokenFile.delivered true]) ∧
      cutShortFile.fails = false ∧
      collectedFrom "C" (groupLookupStart "editors")
        ([catalogFile usualCatalog] ++ cutShortFile :: [catalogFile editorsCatalog]) =
        ([], [some "vim", some "emacs", some "vim", some "vim", some "vim"]) :=
  ⟨by decide, by decide,
    (C8_walk_ends_at_failing_file "C" (groupLookupStart "editors") [catalogFile usualCatalog]
      [catalogFile editorsCatalog] brokenFile (by decide)).2.1,
    by decide, by decide⟩

/-- C9: in GroupLookup mode, for every attribute list, the start of a
`description` element moves the state to `COMPS_STATE_GROUP_DESCRIPTION` if the
value of the first attribute equals the locale tag, and to `COMPS_STATE_IGNORE`
otherwise, also when there is no attribute; so a description whose first
attribute differs from the locale never enters the description state, whatever
its later attributes are. -/
theorem C9_description_first_attribute (loc : String) (attributes : List (String × String))
    (cd : PkCompsData) (hq : cd.query = COMPS_QUERY_GROUP) :
    (comps_parser_table loc cd (MarkupEvent.start "description" attributes)).category_state =
        (if attributes.head?.map Prod.snd = some loc then COMPS_STATE_GROUP_DESCRIPTION
          else COMPS_STATE_IGNORE) ∧
      (attributes.head?.map Prod.snd ≠ some loc →
        (comps_parser_table loc cd
          (MarkupEvent.start "description" attributes)).category_state ≠
          COMPS_STATE_GROUP_DESCRIPTION) := by
  have h : (comps_parser_table loc cd
      (MarkupEvent.start "description" attributes)).category_state =
      (if attributes.head?.map Prod.snd = some loc then COMPS_STATE_GROUP_DESCRIPTION
        else COMPS_STATE_IGNORE) := by
    simp only [comps_parser_table, start_closed, hq, startState, groupStart, List.head?_map]
    simp
  refine ⟨h, fun hne => ?_⟩
  rw [h, if_neg hne]
  decide

/-- Witness for C9: with locale `fr`, a description whose first attribute value
is `de` and whose second is `fr` goes to `COMPS_STATE_IGNORE`. -/
theorem C9_description_first_attribute_witness :
    (groupLookupStart "editors").query = COMPS_QUERY_GROUP ∧
      (comps_parser_table "fr" (groupLookupStart "editors") descriptionStart).category_state =
        COMPS_STATE_IGNORE :=
  ⟨rfl,
    (C9_description_first_attribute "fr" [("xml:lang", "de"), ("fallback", "fr")]
      (groupLookupStart "editors") rfl).1⟩

/-- C10: when at least one search value is given, `pk_backend_search_groups`
reports the error left by source enumeration (its code, and its message after
`failed to scan yum.repos.d: `) when enumeration fails, and reports
`PK_ERROR_ENUM_REPO_NOT_FOUND` when enumeration yields no source; in both cases
that single error is the last signal: no package is reported, and nothing of
the catalogs, the locale or the index enters the result. -/
theorem C10_search_groups_repo_errors (env : Collaborators) (value0 : String)
    (values : List String) :
    (∀ error : GError, env.repos_get_sources = Except.error error →
        pk_backend_search_groups env (value0 :: values) =
          { signals :=
              [JobSignal.set_allow_cancel true, JobSignal.set_status_query,
                JobSignal.error_code error.code
                  ("failed to scan yum.repos.d: " ++ error.message)]
            faulted := false }) ∧
      (env.repos_get_sources = Except.ok [] →
        pk_backend_search_groups env (value0 :: values) =
          { signals :=
              [JobSignal.set_allow_cancel true, JobSignal.set_status_query,
                JobSignal.error_code env.PK_ERROR_ENUM_REPO_NOT_FOUND
                  "failed to find any repos"]
            faulted := false }) := by
  constructor
  · intro error h
    simp [pk_backend_search_groups, h]
  · intro h
    simp [pk_backend_search_groups, h]

/-- Witness for C10: enumeration failing with code 3. -/
theorem C10_search_groups_repo_errors_witness :
    (failingEnumeration ⟨3, "permission denied"⟩).repos_get_sources =
        Except.error ⟨3, "permission denied"⟩ ∧
      pk_backend_search_groups (failingEnumeration ⟨3, "permission denied"⟩) ["editors"] =
        { signals :=
            [JobSignal.set_allow_cancel true, JobSignal.set_status_query,
              JobSignal.error_code 3 "failed to scan yum.repos.d: permission denied"]
          faulted := false } :=
  ⟨rfl,
    (C10_search_groups_repo_errors (failingEnumeration ⟨3, "permission denied"⟩) "editors"
      []).1 ⟨3, "permission denied"⟩ rfl⟩

set_option maxRecDepth 16384 in
/-- C11, the code at the failing input: the group search for `editors` finds the
index record (`vim`, `8.2`, `x86_64`, repository `fedora`, packager
`Fedora Project`) and reports the id `vim;8.2;x86_64;Fedora Project`, whose
fourth field is the packager, where the claim requires
`vim;8.2;x86_64;fedora`; the name search builds
`name;evr;arch;repo_id` for every record, semicolons passed through. -/
theorem C11_group_search_id_uses_packager :
    pk_backend_search_groups editorsSearch ["editors"] =
        { signals :=
            [JobSignal.set_allow_cancel true, JobSignal.set_status_query,
              JobSignal.package_available "vim;8.2;x86_64;Fedora Project" "Vi IMproved",
              JobSignal.finished]
          faulted := false } ∧
      package_id_string "vim" "8.2" "x86_64" "fedora" = "vim;8.2;x86_64;fedora" ∧
      (∀ pkg : Dnf5Package,
        (dnf5_emit_pkg pkg).2.1 = package_id_string pkg.name pkg.evr pkg.arch pkg.repo_id) ∧
      (dnf5_emit_pkg ⟨"a;b", "1:2-3", "noarch", "updates", 0, "s"⟩).2.1 =
        "a;b;1:2-3;noarch;updates" :=
  ⟨by decide, by decide, fun _ => rfl, by decide⟩

/-- C12: for every filter key, cache and construction outcomes, two requests
with that key of which the second is issued while the entry is valid invoke
the index-construction collaborator at most once in total (not at all when the
entry was valid before the first, and a successful construction leaves the
entry valid); after `invalidate_all` the next request with that key invokes it
exactly once. -/
theorem C12_cache_builds_at_most_once (filter_key : String)
    (sack_cache : List HifSackCacheItem) (build1 build2 : Option HySack) :
    ((validSack filter_key (get_or_build_index build1 filter_key sack_cache).sack_cache).isSome
        = true →
      (get_or_build_index build1 filter_key sack_cache).constructions +
        (get_or_build_index build2 filter_key
          (get_or_build_index build1 filter_key sack_cache).sack_cache).constructions ≤ 1) ∧
    ((validSack filter_key sack_cache).isSome = true →
      (get_or_build_index build1 filter_key sack_cache).constructions +
        (get_or_build_index build2 filter_key
          (get_or_build_index build1 filter_key sack_cache).sack_cache).constructions = 0) ∧
    (build1.isSome = true →
      (validSack filter_key
        (get_or_build_index build1 filter_key sack_cache).sack_cache).isSome = true) ∧
    (get_or_build_index build1 filter_key (invalidate_all sack_cache)).constructions = 1 := by
  refine ⟨?_, ?_, ?_, ?_⟩
  · intro hv
    have h2 : (get_or_build_index build2 filter_key
        (get_or_build_index build1 filter_key sack_cache).sack_cache).constructions = 0 := by
      cases hc : validSack filter_key (get_or_build_index build1 filter_key sack_cache).sack_cache with
      | none => rw [hc] at hv; exact Bool.noConfusion hv
      | some s =>
        unfold get_or_build_index at hc ⊢
        cases hs : validSack filter_key sack_cache <;> cases build1 <;> simp_all
    rw [h2]
    unfold get_or_build_index
    cases validSack filter_key sack_cache <;> cases build1 <;> simp
  · intro hv
    cases hs : validSack filter_key sack_cache with
    | none => rw [hs] at hv; exact Bool.noConfusion hv
    | some s => simp [get_or_build_index, hs]
  · intro hb
    cases build1 with
    | none => exact Bool.noConfusion hb
    | some s =>
      cases hs : validSack filter_key sack_cache with
      | none =>
        have h1 : get_or_build_index (some s) filter_key sack_cache =
            { result := some s
              sack_cache :=
                { sack := some s, valid := true, key := filter_key } ::
                  sack_cache.filter (fun item => decide (item.key ≠ filter_key))
              constructions := 1 } := by
          simp [get_or_build_index, hs]
        rw [h1]
        simp [validSack, sack_cache_lookup]
      | some s' => simp [get_or_build_index, hs]
  · cases build1 <;> simp [get_or_build_index, validSack_invalidate_all]

/-- Witness for C12: two requests for `all` on `exampleCache`, the first of
which constructs the index. -/
theorem C12_cache_builds_at_most_once_witness :
    (validSack "all"
        (get_or_build_index (some ⟨2⟩) "all" exampleCache).sack_cache).isSome = true ∧
      (get_or_build_index (some ⟨2⟩) "all" exampleCache).constructions = 1 ∧
      (get_or_build_index (some ⟨2⟩) "all" exampleCache).constructions +
        (get_or_build_index (some ⟨3⟩) "all"
          (get_or_build_index (some ⟨2⟩) "all" exampleCache).sack_cache).constructions ≤ 1 :=
  ⟨by decide, by decide,
    (C12_cache_builds_at_most_once "all" exampleCache (some ⟨2⟩) (some ⟨3⟩)).1 (by decide)⟩

/-- C13: a parse invocation in GroupLookup mode, over any catalog files and so
over any event streams, leaves `groups` as it was, and a parse invocation in
CategoryLookup mode leaves `packages` as it was; the same holds for the
callbacks driven over any event stream from state `COMPS_STATE_IGNORE`. -/
theorem C13_one_collection_per_mode (loc : String) (cd : PkCompsData) :
    (cd.query = COMPS_QUERY_GROUP →
        (pk_backend_comps_parser_call loc cd).2.groups = cd.groups ∧
          ∀ evs : List MarkupEvent,
            (drive loc { cd with category_state := COMPS_STATE_IGNORE } evs).groups =
              cd.groups) ∧
      (cd.query = COMPS_QUERY_CATEGORY →
        (pk_backend_comps_parser_call loc cd).2.packages = cd.packages ∧
          ∀ evs : List MarkupEvent,
            (drive loc { cd with category_state := COMPS_STATE_IGNORE } evs).packages =
              cd.packages) := by
  have hm : modeState ({ cd with category_state := COMPS_STATE_IGNORE } : PkCompsData).query
      ({ cd with category_state := COMPS_STATE_IGNORE } : PkCompsData).category_state = true := by
    cases cd.query <;> rfl
  have hl := loop_other_collection loc cd.comps
    { cd with category_state := COMPS_STATE_IGNORE } hm
  constructor
  · intro hq
    exact ⟨hl.1 hq, fun evs => (drive_other_collection loc evs _ hm).1 hq⟩
  · intro hq
    exact ⟨hl.2 hq, fun evs => (drive_other_collection loc evs _ hm).2 hq⟩

set_option maxRecDepth 8192 in
/-- Witness for C13: the GroupLookup parse for `editors` over `usualCatalog`
collects three package entries and no group id. -/
theorem C13_one_collection_per_mode_witness :
    ({ groupLookupStart "editors" with comps := [catalogFile usualCatalog] } :
        PkCompsData).query = COMPS_QUERY_GROUP ∧
      (pk_backend_comps_parser_call "C"
        { groupLookupStart "editors" with comps := [catalogFile usualCatalog] }).2.packages =
        [some "vim", some "emacs", some "vim"] ∧
      (pk_backend_comps_parser_call "C"
        { groupLookupStart "editors" with comps := [catalogFile usualCatalog] }).2.groups = [] :=
  ⟨rfl, by decide,
    ((C13_one_collection_per_mode "C"
      { groupLookupStart "editors" with comps := [catalogFile usualCatalog] }).1 rfl).1⟩

/-- C14: on a walk from parse start (state `COMPS_STATE_IGNORE`), over any event
stream, the match flag goes from false to true only at a text event received
in the Id state of the query mode and only when the text equals the target;
element starts and element ends never set it. -/
theorem C14_match_set_only_by_id_text (loc : String) (cd0 : PkCompsData)
    (evs : List MarkupEvent) (e : MarkupEvent)
    (hstart : cd0.category_state = COMPS_STATE_IGNORE)
    (hoff : (drive loc cd0 evs).query_match = false)
    (hon : (comps_parser_table loc (drive loc cd0 evs) e).query_match = true) :
    ∃ t : String, e = MarkupEvent.text t ∧ t = cd0.current_query ∧
      (drive loc cd0 evs).category_state = idState cd0.query := by
  have hm0 : modeState cd0.query cd0.category_state = true := by
    rw [hstart]; cases cd0.query <;> rfl
  have hm := drive_mode loc evs cd0 hm0
  obtain ⟨hcq, _, hq⟩ := drive_static loc evs cd0
  rw [hq] at hm
  generalize drive loc cd0 evs = cd at hoff hon hm hcq
  cases e with
  | start n a =>
    simp [comps_parser_table, start_closed, hoff] at hon
  | stop n =>
    simp [comps_parser_table, stop_closed, hoff] at hon
  | text t =>
    refine ⟨t, rfl, ?_⟩
    simp only [comps_parser_table, text_closed, textMatch, hoff, Bool.false_or,
      Bool.and_eq_true, Bool.or_eq_true, decide_eq_true_eq] at hon
    obtain ⟨hs, ht⟩ := hon
    refine ⟨by rw [← ht, hcq], ?_⟩
    rcases hs with hs | hs <;> rw [hs] at hm ⊢ <;> cases hq' : cd0.query <;>
      simp_all [modeState, idState]

/-- Witness for C14: in GroupLookup mode the text `editors` received in state
`COMPS_STATE_GROUP_ID` sets the match flag. -/
theorem C14_match_set_only_by_id_text_witness :
    (drive "C" (groupLookupStart "editors")
        [MarkupEvent.start "group" [], MarkupEvent.start "id" []]).query_match = false ∧
      (comps_parser_table "C"
        (drive "C" (groupLookupStart "editors")
          [MarkupEvent.start "group" [], MarkupEvent.start "id" []])
        (MarkupEvent.text "editors")).query_match = true ∧
      ∃ t : String, MarkupEvent.text "editors" = MarkupEvent.text t ∧
        t = (groupLookupStart "editors").current_query ∧
        (drive "C" (groupLookupStart "editors")
          [MarkupEvent.start "group" [], MarkupEvent.start "id" []]).category_state =
          idState (groupLookupStart "editors").query :=
  ⟨by decide, by decide,
    C14_match_set_only_by_id_text "C" (groupLookupStart "editors")
      [MarkupEvent.start "group" [], MarkupEvent.start "id" []] (MarkupEvent.text "editors")
      rfl (by decide) (by decide)⟩

/-- C15: for every parse context, in either query mode and whatever the match
flag was, the match flag is false after the element-end callback for an
element named `category` or `group`. -/
theorem C15_close_resets_match (cd : PkCompsData) :
    (pk_comps_end_element "category" cd).query_match = false ∧
      (pk_comps_end_element "group" cd).query_match = false := by
  simp [stop_closed]

/-- C16, as stated, fails: in GroupLookup mode the `id` start of a group whose
`name` was opened before it leaves the state at `COMPS_STATE_IGNORE`, and
likewise for a category in CategoryLookup mode: `id` is honoured only while the
state is still the one set by the opening of the group or category. -/
theorem C16_id_after_name_counterexample :
    (drive "C" (groupLookupStart "editors") nameThenId).category_state =
        COMPS_STATE_IGNORE ∧
      (drive "C" { groupLookupStart "apps" with query := COMPS_QUERY_CATEGORY }
        categoryNameThenId).category_state = COMPS_STATE_IGNORE := by
  decide

/-- C16, amended: in GroupLookup mode the start of an `id` element moves the
state to `COMPS_STATE_GROUP_ID` when only text and elements the callbacks do
not react to came between the opening of the group and the `id`, and in
CategoryLookup mode to `COMPS_STATE_CATEGORY_ID` under the same condition after
the opening of the category; in any state other than the one set by that
opening, the start of an `id` element leaves the state as it is. -/
theorem C16_id_after_quiet_siblings (loc : String) (cd : PkCompsData)
    (evs : List MarkupEvent) (a a' : List (String × String))
    (hquiet : evs.all quietEvent = true) :
    (cd.query = COMPS_QUERY_GROUP →
        (drive loc cd (MarkupEvent.start "group" a :: (evs ++ [MarkupEvent.start "id" a']))
          ).category_state = COMPS_STATE_GROUP_ID ∧
        (cd.category_state ≠ COMPS_STATE_GROUP →
          (comps_parser_table loc cd (MarkupEvent.start "id" a')).category_state =
            cd.category_state)) ∧
      (cd.query = COMPS_QUERY_CATEGORY →
        (drive loc cd (MarkupEvent.start "category" a :: (evs ++ [MarkupEvent.start "id" a']))
          ).category_state = COMPS_STATE_CATEGORY_ID ∧
        (cd.category_state ≠ COMPS_STATE_CATEGORY →
          (comps_parser_table loc cd (MarkupEvent.start "id" a')).category_state =
            cd.category_state)) := by
  constructor
  · intro hq
    constructor
    · rw [drive_cons, drive_snoc]
      have hs := drive_quiet_state loc evs
        (comps_parser_table loc cd (MarkupEvent.start "group" a)) hquiet
      have hq' := (drive_static loc evs
        (comps_parser_table loc cd (MarkupEvent.start "group" a))).2.2
      simp only [comps_parser_table, start_closed] at hs hq' ⊢
      rw [hs, hq', hq]
      simp [startState, groupStart]
    · intro hne
      simp [comps_parser_table, start_closed, hq, startState, groupStart, hne]
  · intro hq
    constructor
    · rw [drive_cons, drive_snoc]
      have hs := drive_quiet_state loc evs
        (comps_parser_table loc cd (MarkupEvent.start "category" a)) hquiet
      have hq' := (drive_static loc evs
        (comps_parser_table loc cd (MarkupEvent.start "category" a))).2.2
      simp only [comps_parser_table, start_closed] at hs hq' ⊢
      rw [hs, hq', hq]
      simp [startState, categoryStart]
    · intro hne
      simp [comps_parser_table, start_closed, hq, startState, categoryStart, hne]

/-- Witness for C16: the `id` of a group is honoured after blank text and a
`langonly` element. -/
theorem C16_id_after_quiet_siblings_witness :
    quietThenId.all quietEvent = true ∧
      (drive "C" (groupLookupStart "editors")
        (MarkupEvent.start "group" [] :: (quietThenId ++ [MarkupEvent.start "id" []]))
        ).category_state = COMPS_STATE_GROUP_ID :=
  ⟨by decide,
    ((C16_id_after_quiet_siblings "C" (groupLookupStart "editors") quietThenId [] []
      (by decide)).1 rfl).1⟩

/-- C17: for every context and text, the text callback appends the text as one
entry to `groups` exactly when the match flag is set and the state is
`COMPS_STATE_CATEGORY_GROUPID`, appends it as one entry to `packages` exactly
when the match flag is set and the state is `COMPS_STATE_GROUP_PKGREQ`, and
otherwise leaves the collection as it was (so in
`COMPS_STATE_GROUP_DESCRIPTION`, in any other state, and with the match flag
clear, neither collection changes). -/
theorem C17_text_callback_collections (t : String) (cd : PkCompsData) :
    (pk_comps_element_text t cd).groups =
        (if cd.query_match = true ∧ cd.category_state = COMPS_STATE_CATEGORY_GROUPID
          then cd.groups ++ [some t] else cd.groups) ∧
      (pk_comps_element_text t cd).packages =
        (if cd.query_match = true ∧ cd.category_state = COMPS_STATE_GROUP_PKGREQ
          then cd.packages ++ [some t] else cd.packages) := by
  cases cd with
  | mk cq qm gs ps cs s q =>
  by_cases h : cq = t <;> cases qm <;> cases s <;> simp [text_closed, textMatch, h]

/-- C18: for every vector of group ids and every parse context (so every list of
catalog files), the package array of `pk_backend_get_packages_from_group` ends
up as the collected names followed by the one NULL entry appended at the end,
and the string vector returned, read up to its terminator, holds exactly those
names in collection order: the appended NULL adds no entry and hides none. -/
theorem C18_terminator_does_not_leak (loc : String) (groups : List (Option String))
    (cd : PkCompsData) :
    ∃ names : List String,
      (pk_backend_get_packages_from_group loc groups cd).2.packages =
          names.map some ++ [none] ∧
        (pk_backend_get_packages_from_group loc groups cd).1 =
          pk_ptr_array_to_strv (names.map some ++ [none]) ∧
        strvItems (pk_backend_get_packages_from_group loc groups cd).1 = names := by
  obtain ⟨names, h⟩ := groupsLoop_packages_some loc (strvItems groups)
    { cd with query := COMPS_QUERY_GROUP, packages := [] }
  simp only [List.nil_append] at h
  have hp : (pk_backend_get_packages_from_group loc groups cd).2.packages =
      names.map some ++ [none] := by
    show (groupsLoop loc (strvItems groups) _).packages ++ [none] = _
    rw [h]
  have hv : (pk_backend_get_packages_from_group loc groups cd).1 =
      pk_ptr_array_to_strv (names.map some ++ [none]) := by
    show pk_ptr_array_to_strv ((groupsLoop loc (strvItems groups) _).packages ++ [none]) = _
    rw [h]
  refine ⟨names, hp, hv, ?_⟩
  rw [hv, pk_ptr_array_to_strv, List.append_assoc]
  exact strvItems_some names _

/-- C19: the collections are append-only.  For every parse context and every
event, `groups` and `packages` before the event are prefixes of those after
it and at most one entry is appended in total; element-start and element-end
events leave both collections as they were. -/
theorem C19_collections_append_only (loc : String) (cd : PkCompsData) :
    (∀ e : MarkupEvent, ∃ dg dp : List (Option String),
        (comps_parser_table loc cd e).groups = cd.groups ++ dg ∧
          (comps_parser_table loc cd e).packages = cd.packages ++ dp ∧
          dg.length + dp.length ≤ 1) ∧
      (∀ (n : String) (a : List (String × String)),
        (comps_parser_table loc cd (MarkupEvent.start n a)).groups = cd.groups ∧
          (comps_parser_table loc cd (MarkupEvent.start n a)).packages = cd.packages) ∧
      (∀ n : String,
        (comps_parser_table loc cd (MarkupEvent.stop n)).groups = cd.groups ∧
          (comps_parser_table loc cd (MarkupEvent.stop n)).packages = cd.packages) := by
  refine ⟨?_, ?_, ?_⟩
  · intro e
    cases e with
    | start n a => exact ⟨[], [], by simp [comps_parser_table, start_closed]⟩
    | stop n => exact ⟨[], [], by simp [comps_parser_table, stop_closed]⟩
    | text t =>
      by_cases hg : textMatch t cd = true ∧ cd.category_state = COMPS_STATE_CATEGORY_GROUPID
      · have hp : ¬ (textMatch t cd = true ∧ cd.category_state = COMPS_STATE_GROUP_PKGREQ) := by
          rintro ⟨_, h⟩
          rw [hg.2] at h
          exact PkCompsState.noConfusion h
        exact ⟨[some t], [], by simp [comps_parser_table, text_closed, hg, hp]⟩
      · by_cases hp : textMatch t cd = true ∧ cd.category_state = COMPS_STATE_GROUP_PKGREQ
        · exact ⟨[], [some t], by simp [comps_parser_table, text_closed, hg, hp]⟩
        · exact ⟨[], [], by simp [comps_parser_table, text_closed, hg, hp]⟩
  · intro n a
    simp [comps_parser_table, start_closed]
  · intro n
    simp [comps_parser_table, stop_closed]

/-- C20: `pk_backend_get_groups_from_category` hands back the collected group
array itself, for every category and parse context and whatever the parse
returned: the pointer is the array (never a converted string vector), the
array holds the collected ids only, with no NULL terminator appended, and it
is the `groups` array left in the context by the parse. -/
theorem C20_groups_array_returned_unconverted (loc category : String) (cd : PkCompsData) :
    (pk_backend_get_groups_from_category loc category cd).1 =
        StrvPointer.ptr_array
          (pk_backend_comps_parser_call loc
            { cd with query := COMPS_QUERY_CATEGORY, current_query := category,
                      groups := [] }).2.groups ∧
      (pk_backend_get_groups_from_category loc category cd).2 =
        (pk_backend_comps_parser_call loc
          { cd with query := COMPS_QUERY_CATEGORY, current_query := category,
                    groups := [] }).2 ∧
      (∃ names : List String,
        (pk_backend_get_groups_from_category loc category cd).1 =
          StrvPointer.ptr_array (names.map some)) ∧
      (∀ slots : List (Option String),
        (pk_backend_get_groups_from_category loc category cd).1 ≠ StrvPointer.strv slots) := by
  obtain ⟨names, h⟩ := parser_call_groups_some loc
    { cd with query := COMPS_QUERY_CATEGORY, current_query := category, groups := [] }
  simp only [List.nil_append] at h
  refine ⟨rfl, rfl, ⟨names, ?_⟩, ?_⟩
  · show StrvPointer.ptr_array _ = _
    rw [h]
  · intro slots hs
    exact StrvPointer.noConfusion hs

end PkHifComps
